import Mathlib

/-!
# Verification of the Experiment Navigation Engine

A shallow embedding, in Lean 4, of the core services of the experiment
backend: the quota engine (`app/services/quota_engine.py`), the navigation
state machine (`app/services/session_manager.py`), the dependency graph
(`app/services/dependency_graph.py`), the sequencer
(`app/services/sequencer.py`) and the visibility rule evaluator
(`app/services/visibility_engine.py`).

Modelling conventions:
* Python dicts that are used as finite maps become association lists
  (`List (key × value)`); insertion order of the Python dict is the list
  order.
* Mongo / Redis state is passed explicitly: the distribution-counter
  collection and the pick-counter collection become association lists that
  the operations thread through, and Redis quota state becomes a record.
* Unseeded calls to `random.choice` are modelled by an explicit oracle
  argument (a natural number indexing into the candidate list); theorems
  quantify over it.
* Seeded `random.Random(seed)` draws (shuffle, sample, randint, uniform)
  are modelled by fixed deterministic functions of the seed.  No theorem in
  this file relies on any distributional property of these stand-ins, only
  on their determinism, which they share with the seeded Mersenne Twister.
* Python exceptions are modelled where the source handles them: a
  `TypeError` inside a comparison yields `false` (as in
  `_evaluate_comparison`), a failed `int()` parse falls through (as in
  `_resolve_value`), and the catch-all `except` of
  `VisibilityEngine.evaluate` is the `true` result of the fuel-exhaustion
  branch of the evaluator.
-/

namespace QuotaEngine

/-- The Redis-backed state of one branch quota, from
`app/services/quota_engine.py`: `completed` is the integer stored at the
quota key (only ever incremented by `try_complete`), and `reservations`
is the set of session ids that currently hold a reservation key. -/
structure QuotaState where
  completed : Nat
  reservations : List String
deriving Repr, DecidableEq

/-- `QuotaEngine.try_reserve` (quota_engine.py lines 38-88): if the session
already holds a reservation, succeed; otherwise the Lua script atomically
checks `current < limit` and creates the hold.  Returns the verdict and
the new state. -/
def try_reserve (st : QuotaState) (session_id : String) (limit : Nat) :
    Bool × QuotaState :=
  if st.reservations.contains session_id then
    (true, st)
  else if st.completed < limit then
    (true, ⟨st.completed, session_id :: st.reservations⟩)
  else
    (false, st)

/-- `QuotaEngine.try_complete` (quota_engine.py lines 90-131): the Lua
script unconditionally increments the quota counter and deletes the
session's reservation if one existed; it always returns 1 (true). -/
def try_complete (st : QuotaState) (session_id : String) :
    Bool × QuotaState :=
  (true, ⟨st.completed + 1, st.reservations.filter (fun s => ! (s == session_id))⟩)

/-- `QuotaEngine.release_reservation` (quota_engine.py lines 133-147):
drop the hold without completing. -/
def release_reservation (st : QuotaState) (session_id : String) :
    Bool × QuotaState :=
  (st.reservations.contains session_id,
   ⟨st.completed, st.reservations.filter (fun s => ! (s == session_id))⟩)

/-- One call against the quota engine for a fixed branch. -/
inductive QuotaOp where
  | reserve (session_id : String) (limit : Nat)
  | complete (session_id : String)
  | release (session_id : String)
deriving Repr, DecidableEq

/-- Apply a sequence of quota-engine calls to a state, left to right. -/
def runOps (st : QuotaState) : List QuotaOp → QuotaState
  | [] => st
  | op :: rest =>
      let st' :=
        match op with
        | .reserve s l => (try_reserve st s l).2
        | .complete s => (try_complete st s).2
        | .release s => (release_reservation st s).2
      runOps st' rest

/-- Number of `try_complete` calls in a sequence of quota operations. -/
def countCompletes : List QuotaOp → Nat
  | [] => 0
  | .complete _ :: rest => countCompletes rest + 1
  | _ :: rest => countCompletes rest

end QuotaEngine

namespace SessionManager

/-- The scan start position of `SessionManager._find_next_stage`
(session_manager.py lines 1106-1111): the index right after the current
stage's first occurrence in the visible list, or 0 when the current stage
is absent (Python sets `current_index = -1` and scans from
`current_index + 1`). -/
def startIdx (current_stage_id : String) (visible_stages : List String) : Nat :=
  match visible_stages.indexOf? current_stage_id with
  | some i => i + 1
  | none => 0

/-- `SessionManager._find_next_stage` (session_manager.py lines 1100-1119):
return the first stage at an index strictly greater than the current
stage's index in `visible_stages` that is not in `completed_stages`,
or `None` when there is none. -/
def find_next_stage (current_stage_id : String) (completed_stages : List String)
    (visible_stages : List String) : Option String :=
  (visible_stages.drop (startIdx current_stage_id visible_stages)).find?
    (fun sid => ! completed_stages.contains sid)

/-- The tail of `SessionManager.submit_stage` (session_manager.py lines
754-758): `next_stage_id = _find_next_stage(...)` and
`is_complete = next_stage_id is None`. -/
def submit_next (stage_id : String) (completed_stages : List String)
    (visible_stage_ids : List String) : Option String × Bool :=
  let next_stage_id := find_next_stage stage_id completed_stages visible_stage_ids
  (next_stage_id, next_stage_id.isNone)

end SessionManager

namespace DependencyGraph

/-- The two adjacency maps that `DependencyGraph._build_graph`
(dependency_graph.py lines 30-60) produces from the experiment
configuration by scanning every `visibility_rule` for `identifier.identifier`
references: `dependents` maps a stage id to the stages whose rules reference
it, and `dependencies` is the inverse map.  Python stores sets; the lists
here carry their elements in some fixed iteration order. -/
structure DepGraph where
  dependents : List (String × List String)
  dependencies : List (String × List String)

/-- `self.dependents.get(sid, set())` / `self.dependencies.get(sid, set())`:
look a stage id up in an adjacency map, defaulting to the empty set. -/
def adj (m : List (String × List String)) (sid : String) : List String :=
  (m.lookup sid).getD []

/-- A stage `b` directly depends on `a` when the graph records the edge
`a → b` (that is, `b`'s visibility rule references `a`). -/
def Edge (g : DepGraph) (a b : String) : Prop :=
  b ∈ adj g.dependents a

/-- `b` is transitively dependent on `a`: reachable from `a` through one or
more `dependents` edges. -/
def Reaches (g : DepGraph) (a b : String) : Prop :=
  Relation.TransGen (Edge g) a b

/-- Append a value to a set-like list if it is not already present
(models `set.add`). -/
def addUnique (acc : List String) (d : String) : List String :=
  if acc.contains d then acc else acc ++ [d]

/-- The worklist rendering of the recursive `collect_dependents` closure of
`DependencyGraph.get_dependents` (dependency_graph.py lines 101-110): pop a
stage; if unvisited, mark it visited, record each of its direct dependents
in the accumulator and push them for recursive processing.  `fuel` bounds
the number of iterations; `collectFuel` below always supplies enough. -/
def collectGo (g : DepGraph) :
    Nat → List String → List String → List String → List String
  | 0, _, _, acc => acc
  | _ + 1, [], _, acc => acc
  | fuel + 1, sid :: stack, visited, acc =>
      if visited.contains sid then
        collectGo g fuel stack visited acc
      else
        let ds := adj g.dependents sid
        collectGo g fuel (ds ++ stack) (sid :: visited) (ds.foldl addUnique acc)

/-- An upper bound on the worklist entries `collectGo` can ever process:
one initial entry plus the lengths of all adjacency lists, with slack. -/
def collectFuel (g : DepGraph) : Nat :=
  g.dependents.foldl (fun a p => a + p.2.length + 1) 2

/-- The set (as an insertion-ordered list) of all stages transitively
dependent on `stage_id`, before topological sorting. -/
def collect_dependents (g : DepGraph) (stage_id : String) : List String :=
  collectGo g (collectFuel g) [stage_id] [] []

/-- Update the in-degree entry of one key in the Kahn working map. -/
def setDeg (m : List (String × Int)) (k : String) (v : Int) :
    List (String × Int) :=
  m.map (fun p => if p.1 == k then (k, v) else p)

/-- The queue-processing loop of `DependencyGraph._topological_sort`
(dependency_graph.py lines 151-159): pop the queue head, append it to the
result, and decrement the in-degree of each of its dependents that belongs
to the subgraph, enqueueing those whose in-degree reaches zero.  `fuel`
bounds the iterations; the caller passes the subgraph size, which suffices
because every stage is enqueued at most once. -/
def kahnGo (g : DepGraph) :
    Nat → List String → List (String × Int) → List String → List String
  | 0, _, _, result => result
  | _ + 1, [], _, result => result
  | fuel + 1, current :: queue, inDeg, result =>
      let step := (adj g.dependents current).foldl
        (fun (st : List (String × Int) × List String) dep =>
          match st.1.lookup dep with
          | none => st
          | some d =>
              (setDeg st.1 dep (d - 1), if d - 1 == 0 then st.2 ++ [dep] else st.2))
        (inDeg, [])
      kahnGo g fuel (queue ++ step.2) step.1 (result ++ [current])

/-- `DependencyGraph._topological_sort` (dependency_graph.py lines 133-161):
Kahn's algorithm restricted to `stage_ids`, seeded with the stages whose
in-degree inside the subgraph is zero.  When the subgraph contains a cycle
the queue empties early and the cycle members are silently dropped from
the result. -/
def topological_sort (g : DepGraph) (stage_ids : List String) : List String :=
  match stage_ids with
  | [] => []
  | _ =>
      let inDeg : List (String × Int) := stage_ids.map
        (fun sid =>
          (sid, ((adj g.dependencies sid).countP (fun d => stage_ids.contains d) : Int)))
      let queue := (inDeg.filter (fun p => p.2 == 0)).map (fun p => p.1)
      kahnGo g stage_ids.length queue inDeg []

/-- `DependencyGraph.get_dependents` (dependency_graph.py lines 93-113):
collect all transitive dependents of `stage_id` and return them
topologically sorted. -/
def get_dependents (g : DepGraph) (stage_id : String) : List String :=
  topological_sort g (collect_dependents g stage_id)

/-- The slice of the participant session that the jump invalidation
touches: `stage_progress` (unit id to status string), the completed-stage
id list, and the per-unit stored payload map `data` (payloads modelled as
strings). -/
structure JumpSession where
  stage_progress : List (String × String)
  completed_stages : List String
  data : List (String × String)
deriving Repr, DecidableEq

/-- The invalidation effect of a jump, combining
`SessionManager.jump_to_stage` (session_manager.py lines 1009-1026) with
the persistence step of the jump endpoint (api/sessions.py lines 548-567):
when the target is completed, editable and invalidates its dependents,
every dependent present in `stage_progress` has its status set to
`invalidated`, the dependents are stripped from the completed list, and
each dependent's key is unset in the stored `data` map.  Otherwise (and
also when the dependent list is empty, since the code guards on
`if dependents:`) the session is unchanged. -/
def jump_invalidate (g : DepGraph) (st : JumpSession) (target : String)
    (editable invalidates : Bool) : JumpSession :=
  if st.completed_stages.contains target && editable && invalidates then
    let deps := get_dependents g target
    if deps.isEmpty then st
    else
      ⟨st.stage_progress.map
         (fun p => if deps.contains p.1 then (p.1, "invalidated") else p),
       st.completed_stages.filter (fun sid => ! deps.contains sid),
       st.data.filter (fun p => ! deps.contains p.1)⟩
  else st

end DependencyGraph

namespace Sequencer

/-- A node of the definition tree as the sequencer sees it
(a Python dict): its `id`, its direct `pick_assigns` map
(variable to value, values modelled as strings), and its nested
`tasks` and `blocks` child lists. -/
inductive Item where
  | mk (id : String) (pick_assigns : List (String × String))
       (tasks : List Item) (blocks : List Item)

/-- The `id` field of an item. -/
def Item.id : Item → String
  | .mk i _ _ _ => i

/-- The direct `pick_assigns` field of an item. -/
def Item.pick_assigns : Item → List (String × String)
  | .mk _ pa _ _ => pa

/-- The `tasks` field of an item. -/
def Item.tasks : Item → List Item
  | .mk _ _ ts _ => ts

/-- The `blocks` field of an item. -/
def Item.blocks : Item → List Item
  | .mk _ _ _ bs => bs

/-- The placeholder item used where the Python code would index a list
that the caller guarantees to be non-empty. -/
def itemDefault : Item := .mk "" [] [] []

/-- An accumulated multi-valued assignment map
(`Dict[str, List[Any]]` in the source). -/
abbrev Assigns := List (String × List String)

/-- Record one value under a key, creating the key if needed and skipping
values already present — the `if key not in result` / `if value not in
result[key]` steps of `_get_effective_pick_assigns`. -/
def addVal (acc : Assigns) (k v : String) : Assigns :=
  match acc.lookup k with
  | none => acc ++ [(k, [v])]
  | some vs =>
      if vs.contains v then acc
      else acc.map (fun p => if p.1 == k then (k, vs ++ [v]) else p)

mutual

/-- `Sequencer._get_effective_pick_assigns` (sequencer.py lines 265-307):
an item's direct `pick_assigns` (each value as a singleton list) when it
has any; otherwise the union of the direct `pick_assigns` of its `tasks`
followed by the recursively aggregated assigns of its `blocks`, values
deduplicated per variable. -/
def Item.effectivePickAssigns : Item → Assigns
  | .mk _ pa tasks blocks =>
      if pa.isEmpty then
        let fromTasks := tasks.foldl
          (fun acc t =>
            match t with
            | .mk _ tpa _ _ => tpa.foldl (fun a p => addVal a p.1 p.2) acc)
          []
        mergeBlockAssigns fromTasks blocks
      else pa.map (fun p => (p.1, [p.2]))

/-- The `blocks` loop of `_get_effective_pick_assigns`: recursively
aggregate each block's effective assigns into the accumulator. -/
def mergeBlockAssigns (acc : Assigns) : List Item → Assigns
  | [] => acc
  | b :: bs =>
      let ba := Item.effectivePickAssigns b
      mergeBlockAssigns
        (ba.foldl (fun a p => p.2.foldl (fun a2 v => addVal a2 p.1 v) a) acc) bs

end

/-- `PickConditionOperator` from `app/models/experiment.py`:
`not_in`, `in`, and their aliases `!=` and `==`. -/
inductive PickConditionOperator where
  | not_in
  | in_
  | not_equal
  | equal
deriving Repr, DecidableEq

/-- `PickCondition` from `app/models/experiment.py`; the source field
named `variable` (a Lean keyword) is called `var` here. -/
structure PickCondition where
  var : String
  op : PickConditionOperator
deriving Repr, DecidableEq

/-- `OrderingMode` from `app/models/experiment.py`. -/
inductive OrderingMode where
  | sequential
  | randomized
  | balanced
  | weighted
  | latin_square
deriving Repr, DecidableEq

/-- `BalanceOn` from `app/models/experiment.py`. -/
inductive BalanceOn where
  | started
  | completed
deriving Repr, DecidableEq

/-- `PickStrategy` from `app/models/experiment.py`. -/
inductive PickStrategy where
  | random
  | round_robin
  | weighted_random
deriving Repr, DecidableEq

/-- The slice of `RulesConfig` (app/models/experiment.py) that the
sequencer reads.  `weights` and `pick_weights` are `WeightConfig` lists
flattened to id-weight pairs; an `Optional[List]` field that Python only
ever tests for truthiness is modelled as a plain list (absent = empty). -/
structure RulesConfig where
  ordering : OrderingMode
  balance_on : BalanceOn
  weights : List (String × Int)
  pick_count : Option Int
  pick_strategy : PickStrategy
  pick_weights : List (String × Int)
  pick_conditions : List PickCondition

/-- The per-condition test of `Sequencer._filter_by_conditions`
(sequencer.py lines 218-254), one condition at a time: a child with no
effective value for the condition's variable skips the condition; under
`not_in`/`!=` every child value must be absent from the accumulated
values, and under `in`/`==` every child value must be present (the inner
loop of the source fails, with `break`, on the first value that is in the
ledger resp. not in the ledger, which is the same as this `all`). -/
def childPassesConditions (assigns : Assigns) (conds : List PickCondition)
    (ledger : Assigns) : Bool :=
  conds.all (fun c =>
    let child_values := (assigns.lookup c.var).getD []
    let accumulated := (ledger.lookup c.var).getD []
    if child_values.isEmpty then true
    else
      child_values.all (fun v =>
        match c.op with
        | .not_in | .not_equal => ! accumulated.contains v
        | .in_ | .equal => accumulated.contains v))

/-- `Sequencer._filter_by_conditions` (sequencer.py lines 184-263): keep
the children that pass every condition against the accumulated
`pick_assignments` ledger. -/
def filter_by_conditions (children : List Item) (conds : List PickCondition)
    (ledger : Assigns) : List Item :=
  if conds.isEmpty then children
  else children.filter
    (fun child => childPassesConditions child.effectivePickAssigns conds ledger)

/-- `Sequencer._collect_pick_assigns` (sequencer.py lines 309-330): merge
the direct `pick_assigns` of the given children into one multi-valued
map, values appended in order and not deduplicated; `None` when nothing
was collected. -/
def collect_pick_assigns (children : List Item) : Option Assigns :=
  if children.isEmpty then none
  else
    let result := children.foldl
      (fun acc c =>
        c.pick_assigns.foldl
          (fun a p =>
            match a.lookup p.1 with
            | none => a ++ [(p.1, [p.2])]
            | some vs => a.map (fun q => if q.1 == p.1 then (p.1, vs ++ [p.2]) else q))
          acc)
      []
    if result.isEmpty then none else some result

/-- Deterministic stand-in for Python's `hash(session_id) % (2**32)`
seed derivation; only its determinism matters to the development. -/
def pyHash (s : String) : Nat :=
  s.foldl (fun a c => (a * 31 + c.toNat) % 4294967296) 7

/-- `seed if seed is not None else hash(session_id) % 2**32`. -/
def seedOf (session_id : String) (seed : Option Nat) : Nat :=
  seed.getD (pyHash session_id)

/-- Deterministic stand-in for the seeded `random.Random(seed).shuffle`
of `Sequencer._randomize`; only determinism in the seed is used. -/
def rngShuffle (seed : Nat) (l : List Item) : List Item :=
  l.rotate (seed % (l.length + 1))

/-- Deterministic stand-in for the seeded `random.Random(seed).sample`
(sample without replacement) of `Sequencer._pick_random`. -/
def rngSample (seed : Nat) (l : List Item) (k : Nat) : List Item :=
  (l.rotate (seed % (l.length + 1))).take k

/-- Deterministic stand-in for `random.Random(seed).randint(lo, hi)`. -/
def rngRandint (seed : Nat) (lo hi : Int) : Int :=
  if hi < lo then lo else lo + ((seed : Int) % (hi - lo + 1))

/-- Deterministic stand-in for the i-th `rng.uniform(0, total)` roll of a
seeded generator, scaled to an integer in `[1, total]`. -/
def rollOf (seed i : Nat) (total : Int) : Int :=
  1 + (((seed : Int) + 31 * (i : Int)) % (max 1 total))

/-- Weight lookup with the default weight 1 for unlisted branches, as
built by the weight-map loops of `_weighted_select`,
`_pick_weighted_random` and `get_weighted_order_all`. -/
def weightOf (ws : List (String × Int)) (cid : String) : Int :=
  (ws.lookup cid).getD 1

/-- The cumulative-sum scan shared by the weighted draws: the first item
whose running cumulative weight reaches the roll, together with the
remaining pool (for the without-replacement loops). -/
def takeByRoll (ws : List (String × Int)) (roll : Int) :
    List Item → Int → Option (Item × List Item)
  | [], _ => none
  | c :: rest, cum =>
      let cum' := cum + weightOf ws c.id
      if roll ≤ cum' then some (c, rest)
      else (takeByRoll ws roll rest cum').map (fun p => (p.1, c :: p.2))

/-- `Sequencer._pick_random` (sequencer.py lines 332-350): seeded sample
without replacement of `pick_count` children. -/
def pick_random (children : List Item) (pick_count : Nat) (session_id : String)
    (seed : Option Nat) : List Item × List String × String :=
  let picked := rngSample (seedOf session_id seed) children pick_count
  (picked, picked.map Item.id, "Random pick")

/-- `itertools.combinations(range(n), k)` in its lexicographic emission
order, as enumerated by `_pick_round_robin`. -/
def combosList : List Nat → Nat → List (List Nat)
  | _, 0 => [[]]
  | [], _ + 1 => []
  | x :: xs, k + 1 =>
      (combosList xs k).map (fun c => x :: c) ++ combosList xs (k + 1)

/-- `Sequencer._pick_round_robin` (sequencer.py lines 352-410): advance
the per-decision-point pick counter atomically (find-one-and-update with
upsert, returning the post-increment value) and use it, wrapped modulo
the combination count, to choose the next combination.  The pick-counter
collection is an association list from `level_id + "_pick_rr"` to the
counter value. -/
def pick_round_robin (children : List Item) (pick_count : Nat)
    (level_id : String) (pickDb : List (String × Nat)) :
    (List Item × List String × String) × List (String × Nat) :=
  let allCombos := combosList (List.range children.length) pick_count
  let num := allCombos.length
  let key := level_id ++ "_pick_rr"
  let current := ((pickDb.lookup key).getD 0) + 1
  let pickDb' :=
    match pickDb.lookup key with
    | some c => pickDb.map (fun p => if p.1 == key then (key, c + 1) else p)
    | none => pickDb ++ [(key, 1)]
  let counter := (current - 1) % (max 1 num)
  let combo := allCombos.getD counter []
  let picked := combo.map (fun i => children.getD i itemDefault)
  ((picked, picked.map Item.id, "Round-robin"), pickDb')

/-- The without-replacement weighted draw loop of
`Sequencer._pick_weighted_random` (sequencer.py lines 441-462). -/
def weightedDrawGo (ws : List (String × Int)) (seed : Nat) :
    Nat → List Item → List Item → List Item
  | 0, _, picked => picked
  | _ + 1, [], picked => picked
  | k + 1, remaining, picked =>
      let total := remaining.foldl (fun a c => a + weightOf ws c.id) 0
      match takeByRoll ws (rollOf seed picked.length total) remaining 0 with
      | some (c, rest) => weightedDrawGo ws seed k rest (picked ++ [c])
      | none => weightedDrawGo ws seed k remaining picked

/-- `Sequencer._pick_weighted_random` (sequencer.py lines 412-467):
weighted sample without replacement of `pick_count` children using the
`pick_weights` map with default weight 1. -/
def pick_weighted_random (children : List Item) (pick_count : Nat)
    (rules : RulesConfig) (session_id : String) (seed : Option Nat) :
    List Item × List String × String :=
  let picked := weightedDrawGo rules.pick_weights (seedOf session_id seed)
    pick_count children []
  (picked, picked.map Item.id, "Weighted random pick")

/-- The result quadruple of `Sequencer.pick_children`. -/
structure PickResult where
  picked : List Item
  picked_ids : Option (List String)
  reason : String
  new_assignments : Option Assigns

/-- `Sequencer.pick_children` (sequencer.py lines 89-182).  In order: no
children; no rules or no `pick_count`; non-positive `pick_count`;
restoration of non-empty `existing_picks` whose filtered count matches
`pick_count`; `pick_conditions` filtering (only when a `pick_assignments`
ledger was supplied), returning an empty selection when the filter
empties the pool; the use-all short-circuit when `pick_count` covers the
filtered candidates; and finally the configured pick strategy.  The
round-robin counter collection is threaded through explicitly. -/
def pick_children (children : List Item) (rules : Option RulesConfig)
    (session_id level_id : String) (existing_picks : Option (List String))
    (randomization_seed : Option Nat) (pick_assignments : Option Assigns)
    (pickDb : List (String × Nat)) : PickResult × List (String × Nat) :=
  if children.isEmpty then
    (⟨[], none, "No children to pick from", none⟩, pickDb)
  else
    match rules with
    | none =>
        (⟨children, none, "No pick_count specified, using all children",
          collect_pick_assigns children⟩, pickDb)
    | some r =>
      match r.pick_count with
      | none =>
          (⟨children, none, "No pick_count specified, using all children",
            collect_pick_assigns children⟩, pickDb)
      | some pc =>
        if pc ≤ 0 then
          (⟨children, none, "pick_count must be positive, using all children",
            collect_pick_assigns children⟩, pickDb)
        else
          let restored : Option PickResult :=
            match existing_picks with
            | some eps =>
                if eps.isEmpty then none
                else
                  let picked := children.filter (fun c => eps.contains c.id)
                  if (picked.length : Int) == pc then
                    some ⟨picked, some eps, "Restored previous picks",
                          collect_pick_assigns picked⟩
                  else none
            | none => none
          match restored with
          | some res => (res, pickDb)
          | none =>
            let condApplied :=
              match pick_assignments with
              | some _ => ! r.pick_conditions.isEmpty
              | none => false
            let candidates :=
              if condApplied then
                filter_by_conditions children r.pick_conditions
                  ((pick_assignments.getD []))
              else children
            if condApplied && candidates.isEmpty then
              (⟨[], some [], "No candidates satisfy pick_conditions", none⟩, pickDb)
            else if (candidates.length : Int) ≤ pc then
              (⟨candidates, some (candidates.map Item.id),
                "pick_count covers all filtered candidates, using all",
                collect_pick_assigns candidates⟩, pickDb)
            else
              match r.pick_strategy with
              | .random =>
                  let t := pick_random candidates pc.toNat session_id
                    randomization_seed
                  (⟨t.1, some t.2.1, t.2.2, collect_pick_assigns t.1⟩, pickDb)
              | .round_robin =>
                  let t := pick_round_robin candidates pc.toNat level_id pickDb
                  (⟨t.1.1, some t.1.2.1, t.1.2.2, collect_pick_assigns t.1.1⟩, t.2)
              | .weighted_random =>
                  let t := pick_weighted_random candidates pc.toNat r session_id
                    randomization_seed
                  (⟨t.1, some t.2.1, t.2.2, collect_pick_assigns t.1⟩, pickDb)

/-- One row of the `distribution_counters` collection: its
`started_count` and `completed_count` fields. -/
structure Counts where
  started : Int
  completed : Int
deriving Repr, DecidableEq

/-- Look up the counter row for `(level_id, child_id)`, defaulting both
counts to 0 when the document does not exist (`doc.get(..., 0) if doc
else 0`). -/
def getCounts (db : List ((String × String) × Counts))
    (level_id child_id : String) : Counts :=
  (db.lookup (level_id, child_id)).getD ⟨0, 0⟩

/-- The atomic `find_one_and_update` with `$inc` and upsert used by
`_balanced_select` and `_get_balanced_latin_square_index`: increment the
field selected by `balance_on` of the `(level_id, child_id)` row,
creating the row if absent. -/
def incCounter (db : List ((String × String) × Counts))
    (level_id child_id : String) (field : BalanceOn) :
    List ((String × String) × Counts) :=
  match db.lookup (level_id, child_id) with
  | some c =>
      db.map (fun p =>
        if p.1 == (level_id, child_id) then
          ((level_id, child_id),
           match field with
           | .started => ⟨c.started + 1, c.completed⟩
           | .completed => ⟨c.started, c.completed + 1⟩)
        else p)
  | none =>
      db ++ [((level_id, child_id),
        match field with
        | .started => ⟨1, 0⟩
        | .completed => ⟨0, 1⟩)]

/-- `Sequencer._balanced_select` (sequencer.py lines 486-546), in the
database-backed configuration: read `started_count` for every child (the
source reads `started_count` unconditionally at line 513), find the
minimum, pick among the tied candidates by the unseeded `random.choice`
(modelled by the `choice` oracle, reduced modulo the candidate count),
increment the counter field selected by `balance_on` for the chosen
child, and return the single-element selection with its id as the
assignment. -/
def balanced_select (children : List Item) (level_id : String)
    (rules : RulesConfig) (db : List ((String × String) × Counts))
    (choice : Nat) :
    (List Item × Option String × Option String) × List ((String × String) × Counts) :=
  match children.map (fun c => (c.id, (getCounts db level_id c.id).started)) with
  | [] => (([], none, some "no children"), db)
  | c0 :: crest =>
      let min_count := crest.foldl (fun m p => min m p.2) c0.2
      let candidates := ((c0 :: crest).filter (fun p => p.2 == min_count)).map
        (fun p => p.1)
      let selected_id := candidates.getD (choice % candidates.length) ""
      let db' := incCounter db level_id selected_id rules.balance_on
      let selected := (children.find? (fun c => c.id == selected_id)).getD
        (children.headD itemDefault)
      (([selected], some selected_id, some "Balanced"), db')

/-- `Sequencer._generate_latin_square` (sequencer.py lines 715-726):
row `i` is `[(i + j) % n for j in range(n)]`. -/
def generate_latin_square (n : Nat) : List (List Nat) :=
  (List.range n).map (fun i => (List.range n).map (fun j => (i + j) % n))

/-- `Sequencer._get_balanced_latin_square_index` (sequencer.py lines
728-771): least-filled selection over the `started_count` rows of the
`level_id + "_ls"` counter namespace, tie broken by the unseeded
`random.choice` oracle, then an atomic increment of the chosen row. -/
def balanced_latin_square_index (level_id : String) (num_orderings : Nat)
    (db : List ((String × String) × Counts)) (choice : Nat) :
    Nat × List ((String × String) × Counts) :=
  match (List.range num_orderings).map
      (fun i => (i, (getCounts db (level_id ++ "_ls") (toString i)).started)) with
  | [] => (0, db)
  | c0 :: crest =>
      let min_count := crest.foldl (fun m p => min m p.2) c0.2
      let candidates := ((c0 :: crest).filter (fun p => p.2 == min_count)).map
        (fun p => p.1)
      let idx := candidates.getD (choice % candidates.length) 0
      (idx, incCounter db (level_id ++ "_ls") (toString idx) .started)

/-- `Sequencer._latin_square_select` (sequencer.py lines 675-713), in the
database-backed configuration: generate the canonical Latin square, pick
a row by balanced selection over the `_ls` counter namespace, permute the
children by that row and serialize the realized order as the
comma-joined assignment token. -/
def latin_square_select (children : List Item) (level_id session_id : String)
    (seed : Option Nat) (db : List ((String × String) × Counts)) (choice : Nat) :
    (List Item × Option String × Option String) × List ((String × String) × Counts) :=
  if children.length == 0 then (([], none, some "No children for Latin Square"), db)
  else
    let orderings := generate_latin_square children.length
    let r := balanced_latin_square_index level_id orderings.length db choice
    let ordered := (orderings.getD r.1 []).map (fun i => children.getD i itemDefault)
    ((ordered, some (String.intercalate "," (ordered.map Item.id)),
      some "Latin Square"), r.2)

/-- `Sequencer._weighted_select` (sequencer.py lines 548-592): a single
seeded weighted roll over the cumulative weights, falling back to the
last child if the scan somehow fails. -/
def weighted_select (children : List Item) (rules : RulesConfig)
    (session_id : String) (seed : Option Nat) :
    List Item × Option String × Option String :=
  let total := children.foldl (fun a c => a + weightOf rules.weights c.id) 0
  let roll := rngRandint (seedOf session_id seed) 1 total
  match takeByRoll rules.weights roll children 0 with
  | some (c, _) => ([c], some c.id, some "Weighted")
  | none =>
      match children.getLast? with
      | some c => ([c], some c.id, some "Weighted fallback to last")
      | none => ([], none, some "Weighted fallback")

/-- `Sequencer.get_ordered_children` (sequencer.py lines 40-87), in the
database-backed configuration.  The restoration branch (lines 66-69)
fires when a non-empty `existing_assignment` is present, the mode is
balanced, weighted or latin_square, and some child's `id` equals the
assignment string; otherwise the configured mode runs.  The
distribution-counter collection is threaded through explicitly, and the
unseeded tie-break randomness is the `choice` oracle. -/
def get_ordered_children (children : List Item) (rules : Option RulesConfig)
    (session_id level_id : String) (existing_assignment : Option String)
    (randomization_seed : Option Nat) (db : List ((String × String) × Counts))
    (choice : Nat) :
    (List Item × Option String × Option String) × List ((String × String) × Counts) :=
  if children.isEmpty then (([], none, none), db)
  else
    match rules with
    | none => ((children, none, some "No rules specified, using sequential"), db)
    | some r =>
      let restoreMode := r.ordering == OrderingMode.balanced
        || r.ordering == OrderingMode.weighted
        || r.ordering == OrderingMode.latin_square
      let restored : Option Item :=
        match existing_assignment with
        | some a =>
            if restoreMode && ! (a == "") then children.find? (fun c => c.id == a)
            else none
        | none => none
      match existing_assignment, restored with
      | some a, some c => (([c], some a, some "Restored previous assignment"), db)
      | _, _ =>
        match r.ordering with
        | .sequential => ((children, none, some "Sequential ordering"), db)
        | .randomized =>
            ((rngShuffle (seedOf session_id randomization_seed) children, none,
              some "Randomized ordering"), db)
        | .balanced => balanced_select children level_id r db choice
        | .weighted =>
            (weighted_select children r session_id randomization_seed, db)
        | .latin_square =>
            latin_square_select children level_id session_id randomization_seed
              db choice

end Sequencer

namespace VisibilityEngine

/-!
String primitives, implemented structurally over `List Char` so that the
rule evaluator is fully computable by the kernel.  Each mirrors the
corresponding Python `str` method used by `visibility_engine.py`.
-/

/-- Python `s.strip()`: remove leading and trailing whitespace. -/
def strTrim (s : String) : String :=
  String.mk (((s.toList.dropWhile Char.isWhitespace).reverse.dropWhile
    Char.isWhitespace).reverse)

/-- Python `s.lower()`. -/
def strLower (s : String) : String := String.mk (s.toList.map Char.toLower)

/-- Python `s.upper()`. -/
def strUpper (s : String) : String := String.mk (s.toList.map Char.toUpper)

/-- Python `s.startswith(pre)`. -/
def strStarts (s pre : String) : Bool := pre.toList.isPrefixOf s.toList

/-- Python `s.endswith(suf)`. -/
def strEnds (s suf : String) : Bool :=
  suf.toList.reverse.isPrefixOf s.toList.reverse

/-- Python `s[n:]`. -/
def strDrop (s : String) (n : Nat) : String := String.mk (s.toList.drop n)

/-- Python `s[:-n]` (for `n` at most the length). -/
def strDropRight (s : String) (n : Nat) : String :=
  String.mk (s.toList.take (s.toList.length - n))

/-- Python `ch in s` for a single character. -/
def strHasChar (s : String) (c : Char) : Bool := s.toList.contains c

/-- Python `sub in s` for a non-empty substring: some tail of `s` starts
with `sub`. -/
def containsL (sub : List Char) : List Char → Bool
  | [] => sub.isEmpty
  | c :: cs => sub.isPrefixOf (c :: cs) || containsL sub cs

/-- Python `sub in s`. -/
def strContains (s sub : String) : Bool := containsL sub.toList s.toList

/-- The scanning loop of `splitOnS`: cut at every non-overlapping
occurrence of the (non-empty) separator, leftmost first. -/
def splitOnGo (sep : List Char) : Nat → List Char → List Char → List (List Char)
  | _, cur, [] => [cur.reverse]
  | 0, cur, rest => [cur.reverse ++ rest]
  | f + 1, cur, c :: cs =>
      if sep.isPrefixOf (c :: cs) then
        cur.reverse :: splitOnGo sep f [] ((c :: cs).drop sep.length)
      else splitOnGo sep f (c :: cur) cs

/-- Python `s.split(sep)` for a non-empty separator. -/
def splitOnS (s sep : String) : List String :=
  if sep.toList.isEmpty then [s]
  else (splitOnGo sep.toList s.toList.length [] s.toList).map String.mk

/-- The scanning loop of `replaceS`. -/
def replaceGo (pat rep : List Char) : Nat → List Char → List Char
  | _, [] => []
  | 0, cs => cs
  | f + 1, c :: cs =>
      if ! pat.isEmpty && pat.isPrefixOf (c :: cs) then
        rep ++ replaceGo pat rep f ((c :: cs).drop pat.length)
      else c :: replaceGo pat rep f cs

/-- Python `s.replace(pat, rep)` (all occurrences). -/
def replaceS (s pat rep : String) : String :=
  String.mk (replaceGo pat.toList rep.toList s.toList.length s.toList)

/-- The numeric value of a list of decimal digits. -/
def digitsToNat (cs : List Char) : Nat :=
  cs.foldl (fun a c => a * 10 + (c.toNat - 48)) 0

/-- Lexicographic three-way comparison of strings by code point, as
Python compares strings. -/
def cmpChars : List Char → List Char → Ordering
  | [], [] => .eq
  | [], _ :: _ => .lt
  | _ :: _, [] => .gt
  | a :: as_, b :: bs =>
      if a.toNat < b.toNat then .lt
      else if b.toNat < a.toNat then .gt
      else cmpChars as_ bs

/-- A Python runtime value as the visibility engine manipulates it.
Python `int` and `float` are collapsed into an exact rational `num`
(no claim in this development exercises IEEE rounding); `bool` is kept
separate but compares as its numeric value, as in Python. -/
inductive Value where
  | none_
  | bool_ (b : Bool)
  | num (q : ℚ)
  | str (s : String)
  | list_ (vs : List Value)
  | dict (fields : List (String × Value))

/-- Python truthiness, `bool(value)`. -/
def truthy : Value → Bool
  | .none_ => false
  | .bool_ b => b
  | .num q => ! (q == 0)
  | .str s => ! (s == "")
  | .list_ vs => ! vs.isEmpty
  | .dict f => ! f.isEmpty

mutual

/-- Python `==` on values: numbers (and booleans, which are numeric in
Python) compare by value, strings by content, lists elementwise;
values of unrelated types compare unequal without raising.  Dict
equality is modelled as ordered-field equality (not exercised by any
claim). -/
def pyEq : Value → Value → Bool
  | .num a, .num b => a == b
  | .num a, .bool_ b => a == (if b then 1 else 0)
  | .bool_ a, .num b => (if a then (1 : ℚ) else 0) == b
  | .bool_ a, .bool_ b => a == b
  | .str a, .str b => a == b
  | .none_, .none_ => true
  | .list_ as_, .list_ bs => pyEqList as_ bs
  | .dict a, .dict b => pyEqDict a b
  | _, _ => false

/-- Elementwise list equality under `pyEq`. -/
def pyEqList : List Value → List Value → Bool
  | [], [] => true
  | a :: as_, b :: bs => pyEq a b && pyEqList as_ bs
  | _, _ => false

/-- Ordered-field dict equality under `pyEq` (a modelling simplification
of Python dict equality; not exercised by any claim). -/
def pyEqDict : List (String × Value) → List (String × Value) → Bool
  | [], [] => true
  | (k1, v1) :: as_, (k2, v2) :: bs => k1 == k2 && pyEq v1 v2 && pyEqDict as_ bs
  | _, _ => false

end

/-- Three-way comparison of rationals. -/
def cmpQ (a b : ℚ) : Ordering :=
  if a < b then .lt else if a == b then .eq else .gt

mutual

/-- Python ordering comparison (`<`, `>`): defined for number/boolean
pairs, string pairs and list pairs (lexicographically); `none` models
the `TypeError` Python raises on unrelated types, which
`_evaluate_comparison` turns into `False`. -/
def pyCompare : Value → Value → Option Ordering
  | .num a, .num b => some (cmpQ a b)
  | .num a, .bool_ b => some (cmpQ a (if b then 1 else 0))
  | .bool_ a, .num b => some (cmpQ (if a then (1 : ℚ) else 0) b)
  | .bool_ a, .bool_ b => some (cmpQ (if a then (1 : ℚ) else 0) (if b then 1 else 0))
  | .str a, .str b => some (cmpChars a.toList b.toList)
  | .list_ as_, .list_ bs => pyCompareList as_ bs
  | _, _ => none

/-- Lexicographic list comparison under `pyCompare`. -/
def pyCompareList : List Value → List Value → Option Ordering
  | [], [] => some .eq
  | [], _ :: _ => some .lt
  | _ :: _, [] => some .gt
  | a :: as_, b :: bs =>
      match pyCompare a b with
      | some .eq => pyCompareList as_ bs
      | r => r

end

/-- The six comparison operators. -/
inductive CmpOp where
  | eq
  | ne
  | gt
  | lt
  | ge
  | le
deriving Repr, DecidableEq

/-- `VisibilityEngine.OPERATORS` (visibility_engine.py lines 30-37), in
its Python dict insertion order — the order in which
`_evaluate_comparison` scans for an operator occurring in the
expression.  Note that `>` precedes `>=` and `<` precedes `<=`. -/
def OPERATORS : List (String × CmpOp) :=
  [("==", .eq), ("!=", .ne), (">", .gt), ("<", .lt), (">=", .ge), ("<=", .le)]

/-- Apply one comparison operator, with the `TypeError` of an undefined
ordering comparison yielding `False` as in the source (lines 168-171). -/
def applyCmpOp (op : CmpOp) (l r : Value) : Bool :=
  match op with
  | .eq => pyEq l r
  | .ne => ! pyEq l r
  | .gt => match pyCompare l r with | some .gt => true | some _ => false | none => false
  | .lt => match pyCompare l r with | some .lt => true | some _ => false | none => false
  | .ge => match pyCompare l r with | some .lt => false | some _ => true | none => false
  | .le => match pyCompare l r with | some .gt => false | some _ => true | none => false

/-- Python `s.split(sep, 1)`: the part before the first occurrence of
`sep` and everything after it. -/
def splitFirst (s sep : String) : String × String :=
  match splitOnS s sep with
  | [] => (s, "")
  | x :: xs => (x, String.intercalate sep xs)

/-- A single-character string holding the apostrophe (code point 39),
the single-quote delimiter of the rule grammar. -/
def sq : String := String.mk [Char.ofNat 39]

/-- Case-insensitive literal match of `kw` against a prefix of `cs`,
returning the remainder on success. -/
def ciMatch : List Char → List Char → Option (List Char)
  | [], cs => some cs
  | _ :: _, [] => none
  | k :: ks, c :: cs => if k.toLower == c.toLower then ciMatch ks cs else none

/-- Match the separator regex of `re.split(r.., flags=IGNORECASE)` with
pattern whitespace+, keyword, whitespace+ at the head of `cs`,
returning the remainder after the separator. -/
def matchSep (kw : List Char) (cs : List Char) : Option (List Char) :=
  let ws1 := cs.takeWhile Char.isWhitespace
  if ws1.isEmpty then none
  else
    match ciMatch kw (cs.drop ws1.length) with
    | none => none
    | some rest =>
        let ws2 := rest.takeWhile Char.isWhitespace
        if ws2.isEmpty then none else some (rest.drop ws2.length)

/-- The scanning loop of the keyword split: advance one character at a
time, splitting wherever the separator pattern matches (leftmost,
non-overlapping), like `re.split` with the pattern of `matchSep`. -/
def splitKwGo (kw : List Char) :
    Nat → List Char → List Char → List String → List String
  | _, cur, [], parts => parts ++ [String.mk cur.reverse]
  | 0, cur, rest, parts => parts ++ [String.mk (cur.reverse ++ rest)]
  | f + 1, cur, c :: cs, parts =>
      match matchSep kw (c :: cs) with
      | some rest' => splitKwGo kw f [] rest' (parts ++ [String.mk cur.reverse])
      | none => splitKwGo kw f (c :: cur) cs parts

/-- `re.split` on whitespace-delimited case-insensitive keyword, as used
for `AND`, `OR`, `contains` and `in`. -/
def splitKw (kw : String) (s : String) : List String :=
  splitKwGo kw.toList s.toList.length [] s.toList []

/-- Python `int(s)` on an already-stripped token: optional sign and
decimal digits (exotic forms such as underscores are not modelled). -/
def parseIntPy (s : String) : Option Int :=
  let t := strTrim s
  let signed : Int × String :=
    if strStarts t "-" then (-1, strDrop t 1)
    else if strStarts t "+" then (1, strDrop t 1)
    else (1, t)
  if signed.2.toList.length > 0 && signed.2.toList.all Char.isDigit then
    some (signed.1 * (digitsToNat signed.2.toList : Int))
  else none

/-- Python `float(s)` on a token containing a dot: optional sign, digits,
dot, digits, as an exact rational (exponent and inf/nan forms are not
modelled; no claim exercises IEEE rounding). -/
def parseFloatPy (s : String) : Option ℚ :=
  let t := strTrim s
  let signed : ℚ × String :=
    if strStarts t "-" then (-1, strDrop t 1)
    else if strStarts t "+" then (1, strDrop t 1)
    else (1, t)
  match splitOnS signed.2 "." with
  | [ip, fp] =>
      if (ip.toList.length > 0 || fp.toList.length > 0)
         && ip.toList.all Char.isDigit && fp.toList.all Char.isDigit then
        some (signed.1 * ((digitsToNat ip.toList : ℚ)
          + (digitsToNat fp.toList : ℚ) / ((10 : ℚ) ^ fp.toList.length)))
      else none
  | _ => none

/-- The evaluation context of `VisibilityEngine.evaluate` (its docstring,
lines 48-66): the namespaces the engine resolves dotted paths in.
Each namespace is a Python dict, modelled as an association list. -/
structure Context where
  session : List (String × Value)
  url_params : List (String × Value)
  participant : List (String × Value)
  scores : List (String × Value)
  assignments : List (String × Value)
  environment : List (String × Value)

/-- The empty context. -/
def emptyCtx : Context := ⟨[], [], [], [], [], []⟩

/-- `VisibilityEngine._get_nested` (visibility_engine.py lines 311-324):
walk a dot path through nested dicts, `None` as soon as a step is
missing or the current value is not a dict. -/
def getNested : Value → List String → Value
  | v, [] => v
  | .dict f, p :: ps => getNested ((f.lookup p).getD .none_) ps
  | _, _ :: _ => .none_

/-- `VisibilityEngine._get_from_context` (visibility_engine.py lines
258-309): dispatch the first path segment to a namespace
(case-insensitively), else treat it as a stage id in the session data,
else look it up in the participant data. -/
def get_from_context (path : String) (ctx : Context) : Value :=
  match splitOnS path "." with
  | [] => .none_
  | first :: rest =>
      let fl := strLower first
      if fl == "url_params" || fl == "url" then getNested (.dict ctx.url_params) rest
      else if fl == "session" || fl == "responses" then
        getNested (.dict ctx.session) rest
      else if fl == "participant" then getNested (.dict ctx.participant) rest
      else if fl == "scores" then getNested (.dict ctx.scores) rest
      else if fl == "assignments" then getNested (.dict ctx.assignments) rest
      else if fl == "environment" then getNested (.dict ctx.environment) rest
      else
        match ctx.session.lookup first with
        | some stage_data =>
            match stage_data with
            | .dict f => getNested (.dict f) rest
            | _ => stage_data
        | none =>
            match ctx.participant.lookup first with
            | some v =>
                if rest.isEmpty then v
                else getNested (.dict ctx.participant) (first :: rest)
            | none => .none_

/-- `VisibilityEngine._resolve_value` (visibility_engine.py lines
230-256): quoted string literal, then numeric literal (`float` when the
token contains a dot, else `int`, a failed parse falling through as the
caught `ValueError` does), then boolean / null literals, then a context
reference. -/
def resolve_value (token : String) (ctx : Context) : Value :=
  let token := strTrim token
  if (strStarts token sq && strEnds token sq)
     || (strStarts token "\"" && strEnds token "\"") then
    .str (strDropRight (strDrop token 1) 1)
  else
    let numParsed : Option Value :=
      if strHasChar token '.' then (parseFloatPy token).map .num
      else (parseIntPy token).map .num
    match numParsed with
    | some v => v
    | none =>
        if strLower token == "true" then .bool_ true
        else if strLower token == "false" then .bool_ false
        else if strLower token == "null" || strLower token == "none" then .none_
        else get_from_context token ctx

/-- Is the value numeric for coercion purposes?  Python
`isinstance(x, (int, float))` is true for booleans as well. -/
def numLike : Value → Bool
  | .num _ => true
  | .bool_ _ => true
  | _ => false

/-- Coerce one numeric-looking string (`float` when it contains a dot,
else `int`), keeping the string when the parse fails (the caught
`ValueError`). -/
def coerceStr (s : String) : Value :=
  if strHasChar s '.' then
    match parseFloatPy s with
    | some q => .num q
    | none => .str s
  else
    match parseIntPy s with
    | some n => .num (n : ℚ)
    | none => .str s

/-- `VisibilityEngine._coerce_types` (visibility_engine.py lines
326-346): coerce a string opposite a number to a number when it parses,
then lowercase both sides of a string/string comparison. -/
def coerce_types (l r : Value) : Value × Value :=
  let r1 :=
    match l, r with
    | lv, .str s => if numLike lv then coerceStr s else .str s
    | _, rv => rv
  let l1 :=
    match r1, l with
    | rv, .str s => if numLike rv then coerceStr s else .str s
    | _, lv => lv
  match l1, r1 with
  | .str a, .str b => (.str (strLower a), .str (strLower b))
  | a, b => (a, b)

/-- `VisibilityEngine._evaluate_comparison` (visibility_engine.py lines
155-175): scan `OPERATORS` in dict insertion order for the first
operator string occurring anywhere in the expression, split once on it,
resolve and coerce both sides and apply the operator; with no operator
present, resolve the whole expression and take its truthiness. -/
def evaluate_comparison (expr : String) (ctx : Context) : Bool :=
  match OPERATORS.find? (fun p => strContains expr p.1) with
  | some p =>
      let parts := splitFirst expr p.1
      let lr := coerce_types (resolve_value (strTrim parts.1) ctx)
        (resolve_value (strTrim parts.2) ctx)
      applyCmpOp p.2 lr.1 lr.2
  | none => truthy (resolve_value expr ctx)

/-- Python `str(value)` as the membership checks use it; the numeric and
container renderings are deterministic stand-ins (no claim exercises
them). -/
def pyStr : Value → String
  | .str s => s
  | .none_ => "None"
  | .bool_ b => if b then "True" else "False"
  | .num q => if q.den == 1 then toString q.num else toString q
  | .list_ _ => "<list>"
  | .dict _ => "<dict>"

/-- `VisibilityEngine._evaluate_contains` (visibility_engine.py lines
177-199): split on the `contains` keyword; membership by `==` in a list,
substring in a string, key membership in a dict. -/
def evaluate_contains (expr : String) (ctx : Context) : Bool :=
  match splitKw "contains" expr with
  | [a, b] =>
      let av := resolve_value (strTrim a) ctx
      let cv := resolve_value (strTrim b) ctx
      match av with
      | .list_ vs => vs.any (fun v => pyEq cv v)
      | .str s => strContains s (pyStr cv)
      | .dict f => ! ((f.lookup (pyStr cv)).isNone)
      | _ => false
  | _ => false

/-- One scalar item of an inline JSON list (after the single-quote to
double-quote replacement). -/
def parseJsonItem (s : String) : Option Value :=
  let t := strTrim s
  if strStarts t "\"" && strEnds t "\"" && t.toList.length ≥ 2 then
    some (.str (strDropRight (strDrop t 1) 1))
  else if t == "true" then some (.bool_ true)
  else if t == "false" then some (.bool_ false)
  else if t == "null" then some .none_
  else if strHasChar t '.' then (parseFloatPy t).map .num
  else (parseIntPy t).map .num

/-- `json.loads` of a flat inline list literal such as
`["a", "b", 3]` (nested lists and embedded commas are not modelled; a
failed parse falls back to the resolved value as the caught exception
does). -/
def parseJsonList (s : String) : Option (List Value) :=
  let inner := strTrim (strDropRight (strDrop (strTrim s) 1) 1)
  if inner == "" then some []
  else
    let items := (splitOnS inner ",").map parseJsonItem
    if items.all (fun o => o.isSome) then
      some (items.map (fun o => o.getD .none_))
    else none

/-- `VisibilityEngine._evaluate_in` (visibility_engine.py lines 201-228):
split on the `in` keyword, resolve both sides, overriding the right side
with an inline bracketed list literal when it parses; membership by
`==` in a list or substring in a string. -/
def evaluate_in (expr : String) (ctx : Context) : Bool :=
  match splitKw "in" expr with
  | [a, b] =>
      let cv := resolve_value (strTrim a) ctx
      let av0 := resolve_value (strTrim b) ctx
      let astr := strTrim b
      let av :=
        if strStarts astr "[" && strEnds astr "]" then
          match parseJsonList (replaceS astr sq "\"") with
          | some vs => .list_ vs
          | none => av0
        else av0
      match av with
      | .list_ vs => vs.any (fun v => pyEq cv v)
      | .str s => strContains s (pyStr cv)
      | _ => false
  | _ => false

/-- The recursive body of `VisibilityEngine.evaluate`
(visibility_engine.py lines 42-129), with a fuel argument standing for
Python's bounded recursion: fuel exhaustion is the `RecursionError`
caught by the catch-all `except`, which returns `True` (default to
visible).  The branch order follows the source: empty rule, literal
`true`/`false`, `AND`, `OR`, `&&`, `||`, prefix `NOT`/`!`, parentheses,
`contains`, `in`, `not_in`, and finally the comparison fallback. -/
def evalFuel (ctx : Context) : Nat → String → Bool
  | 0, _ => true
  | fuel + 1, rule0 =>
      if rule0 == "" then true
      else
        let rule := strTrim rule0
        if strLower rule == "true" then true
        else if strLower rule == "false" then false
        else if strContains (strUpper rule) " AND " then
          (splitKw "AND" rule).all (fun part => evalFuel ctx fuel (strTrim part))
        else if strContains (strUpper rule) " OR " then
          (splitKw "OR" rule).any (fun part => evalFuel ctx fuel (strTrim part))
        else if strContains rule " && " then
          (splitOnS rule " && ").all (fun part => evalFuel ctx fuel (strTrim part))
        else if strContains rule " || " then
          (splitOnS rule " || ").any (fun part => evalFuel ctx fuel (strTrim part))
        else if strStarts (strUpper rule) "NOT " then
          ! evalFuel ctx fuel (strTrim (strDrop rule 4))
        else if strStarts rule "!" then
          ! evalFuel ctx fuel (strTrim (strDrop rule 1))
        else if strStarts rule "(" && strEnds rule ")" then
          evalFuel ctx fuel (strDropRight (strDrop rule 1) 1)
        else if strContains (strLower rule) " contains " then evaluate_contains rule ctx
        else if strContains (strLower rule) " in " then evaluate_in rule ctx
        else if strContains (strLower rule) " not_in " then
          ! evaluate_in (replaceS rule "not_in" "in") ctx
        else evaluate_comparison rule ctx

/-- `VisibilityEngine.evaluate(rule, context, parent_visible)`
(visibility_engine.py lines 42-129): `False` at once when the parent is
not visible, else the recursive evaluator with ample fuel (each
recursive call of the source strictly shrinks the rule string, so
`length + 1` levels never exhaust). -/
def evaluate (rule : String) (ctx : Context) (parent_visible : Bool) : Bool :=
  if ! parent_visible then false
  else evalFuel ctx (rule.length + 1) rule

/-- The chain loop of `VisibilityEngine.evaluate_with_inheritance`
(visibility_engine.py lines 147-153): fold the rules top-down, each
non-empty rule evaluated with the running visibility as
`parent_visible`, returning `False` as soon as the running visibility
becomes false. -/
def ewiGo (ctx : Context) : List (Option String) → Bool → Bool
  | [], visible => visible
  | r :: rest, visible =>
      let visible' :=
        match r with
        | some s => if ! (s == "") then evaluate s ctx visible else visible
        | none => visible
      if visible' then ewiGo ctx rest visible' else false

/-- `VisibilityEngine.evaluate_with_inheritance(rules_chain, context)`
(visibility_engine.py lines 131-153). -/
def evaluate_with_inheritance (chain : List (Option String)) (ctx : Context) : Bool :=
  ewiGo ctx chain true

end VisibilityEngine

/-! ## Concrete instances used by the theorems below -/

/-- A leaf item with id `a` and no assigns. -/
def itemA : Sequencer.Item := .mk "a" [] [] []

/-- A leaf item with id `b` and no assigns. -/
def itemB : Sequencer.Item := .mk "b" [] [] []

/-- A rules record selecting `latin_square` ordering. -/
def rulesLatin : Sequencer.RulesConfig :=
  ⟨.latin_square, .started, [], none, .random, [], []⟩

/-- A rules record selecting `balanced` ordering with
`balance_on = completed`. -/
def rulesBalancedCompleted : Sequencer.RulesConfig :=
  ⟨.balanced, .completed, [], none, .random, [], []⟩

/-- A counter database where branch `A` has `started_count = 0`,
`completed_count = 5` and branch `B` has `started_count = 3`,
`completed_count = 0`, at decision point `L`. -/
def dbBal : List ((String × String) × Sequencer.Counts) :=
  [(("L", "A"), ⟨0, 5⟩), (("L", "B"), ⟨3, 0⟩)]

/-- An `in` pick condition on variable `v`. -/
def condIn : Sequencer.PickCondition := ⟨"v", .in_⟩

/-- A container child without direct `pick_assigns` whose two tasks
assign `v = A` and `v = B`, so its effective assigns aggregate to
`v : [A, B]`. -/
def childAgg : Sequencer.Item :=
  .mk "C" [] [.mk "t1" [("v", "A")] [] [], .mk "t2" [("v", "B")] [] []] []

/-- A dependency graph with a cycle among the dependents of `X`: `Y`
references `X` and `Z` in its visibility rule and `Z` references `Y`
(authorable, e.g. `Y.visibility_rule = "X.f == 1 AND Z.f == 1"` and
`Z.visibility_rule = "Y.f == 1"`), giving dependents
`X -> [Y]`, `Y -> [Z]`, `Z -> [Y]` and dependencies
`Y -> [X, Z]`, `Z -> [Y]`. -/
def gCyc : DependencyGraph.DepGraph :=
  ⟨[("X", ["Y"]), ("Y", ["Z"]), ("Z", ["Y"])],
   [("X", []), ("Y", ["X", "Z"]), ("Z", ["Y"])]⟩

/-- A session in which both `X` and `Y` are completed with stored
payloads. -/
def stCyc : DependencyGraph.JumpSession :=
  ⟨[("X", "completed"), ("Y", "completed")], ["X", "Y"],
   [("X", "dx"), ("Y", "dy")]⟩

/-- A leaf item with id `A` (used as a balanced-selection branch). -/
def itemCapA : Sequencer.Item := .mk "A" [] [] []

/-- A leaf item with id `B` (used as a balanced-selection branch). -/
def itemCapB : Sequencer.Item := .mk "B" [] [] []

/-- A rules record with `pick_count = 1` and the `in` condition on `v`. -/
def rulesPickCond : Sequencer.RulesConfig :=
  ⟨.sequential, .started, [], some 1, .random, [], [condIn]⟩

/-- An acyclic dependency graph: `Y` references `X` and `Z` references
`Y`, so `Y` and `Z` transitively depend on `X` while `W` depends on
nothing. -/
def gLin : DependencyGraph.DepGraph :=
  ⟨[("X", ["Y"]), ("Y", ["Z"])], [("Y", ["X"]), ("Z", ["Y"])]⟩

/-- A session with `X`, `Y`, `Z`, `W` all completed with payloads. -/
def stLin : DependencyGraph.JumpSession :=
  ⟨[("X", "completed"), ("Y", "completed"), ("Z", "completed"), ("W", "completed")],
   ["X", "Y", "Z", "W"],
   [("X", "dx"), ("Y", "dy"), ("Z", "dz"), ("W", "dw")]⟩

/-! ## Auxiliary lemmas -/

/-- Decomposition of a successful `find?`: the found element satisfies
the predicate and everything before it refutes it. -/
theorem aux_find?_decomp {α : Type} {p : α → Bool} :
    ∀ {l : List α} {n : α}, l.find? p = some n →
      p n = true ∧ ∃ pre post, l = pre ++ n :: post ∧ ∀ x ∈ pre, p x = false := by
  intro l
  induction l with
  | nil => intro n h; simp [List.find?] at h
  | cons a t ih =>
      intro n h
      by_cases hpa : p a
      · rw [List.find?_cons_of_pos _ hpa] at h
        cases h
        exact ⟨hpa, [], t, rfl, by simp⟩
      · rw [List.find?_cons_of_neg _ hpa] at h
        obtain ⟨hn, pre, post, hl, hpre⟩ := ih h
        refine ⟨hn, a :: pre, post, by simp [hl], ?_⟩
        intro x hx
        rcases List.mem_cons.mp hx with rfl | hx
        · exact Bool.eq_false_iff.mpr hpa
        · exact hpre x hx

/-- `runOps` accumulates exactly one completion per `complete` call and
never decrements. -/
theorem aux_runOps_completed (ops : List QuotaEngine.QuotaOp) :
    ∀ st : QuotaEngine.QuotaState,
      (QuotaEngine.runOps st ops).completed
        = st.completed + QuotaEngine.countCompletes ops := by
  induction ops with
  | nil => intro st; simp [QuotaEngine.runOps, QuotaEngine.countCompletes]
  | cons op rest ih =>
      intro st
      cases op with
      | reserve s l =>
          simp only [QuotaEngine.runOps, QuotaEngine.countCompletes, ih]
          simp [QuotaEngine.try_reserve]
          by_cases h1 : s ∈ st.reservations <;>
            by_cases h2 : st.completed < l <;> simp [h1, h2]
      | complete s =>
          simp only [QuotaEngine.runOps, QuotaEngine.countCompletes, ih]
          simp [QuotaEngine.try_complete]
          omega
      | release s =>
          simp only [QuotaEngine.runOps, QuotaEngine.countCompletes, ih]
          simp [QuotaEngine.release_reservation]

/-- A rule evaluated under a hidden parent is false, straight from the
first lines of `evaluate`. -/
theorem aux_evaluate_parent_false (rule : String) (ctx : VisibilityEngine.Context) :
    VisibilityEngine.evaluate rule ctx false = false := by
  simp [VisibilityEngine.evaluate]

/-- Once the running visibility is false, the inheritance fold stays
false. -/
theorem aux_ewiGo_false (ctx : VisibilityEngine.Context)
    (chain : List (Option String)) :
    VisibilityEngine.ewiGo ctx chain false = false := by
  cases chain with
  | nil => rfl
  | cons r rest =>
      cases r with
      | none => simp [VisibilityEngine.ewiGo]
      | some s =>
          simp only [VisibilityEngine.ewiGo]
          by_cases hs : (s == "") <;>
            simp [hs, aux_evaluate_parent_false]

/-! ## Claim theorems -/

/-- C3: the rule grammar evaluates `>` and `<` correctly, but the claim
that `a >= b` is true iff `a ≥ b` (and `a <= b` iff `a ≤ b`) fails:
`_evaluate_comparison` scans `OPERATORS` in dict insertion order, where
`>` precedes `>=` and `<` precedes `<=`, so `"5 >= 3"` is split at `>`
into operands `5` and `= 3`; the right operand resolves to `None` and
the comparison returns false — even though `5 ≥ 3`.  The `>=` and `<=`
entries of `OPERATORS` are unreachable. -/
theorem c3_theorem :
    VisibilityEngine.evaluate "5 >= 3" VisibilityEngine.emptyCtx true = false ∧
    VisibilityEngine.evaluate "5 <= 3" VisibilityEngine.emptyCtx true = false ∧
    VisibilityEngine.evaluate "3 <= 5" VisibilityEngine.emptyCtx true = false ∧
    VisibilityEngine.evaluate "5 > 3" VisibilityEngine.emptyCtx true = true ∧
    VisibilityEngine.evaluate "3 < 5" VisibilityEngine.emptyCtx true = true ∧
    VisibilityEngine.evaluate "5 == 5" VisibilityEngine.emptyCtx true = true ∧
    VisibilityEngine.evaluate "5 != 3" VisibilityEngine.emptyCtx true = true :=
  ⟨rfl, rfl, rfl, rfl, rfl, rfl, rfl⟩

/-- C9 counterexample: `"(("` is not a well-formed expression of the
documented grammar, yet `evaluate` returns `false` for it, not the
claimed default-visible `true`: the token falls through to the bare
context lookup of `_evaluate_comparison`, resolves to `None`, and its
truthiness is `False`. -/
theorem c9_counterexample :
    VisibilityEngine.evaluate "((" VisibilityEngine.emptyCtx true = false := rfl

/-- C9 amended: `evaluate` always terminates with a boolean (internal
errors are absorbed by the catch-all and default to visible), and an
absent or empty rule is treated as `true`; but an unparseable rule is
not always `true` — a bare token that resolves to no context value is
treated as a falsy boolean check, so for any context whose session and
participant namespaces are empty, `evaluate "((" ...` is `false`. -/
theorem c9_amended :
    (∀ ctx : VisibilityEngine.Context,
      VisibilityEngine.evaluate "" ctx true = true) ∧
    (∀ u sc a e : List (String × VisibilityEngine.Value),
      VisibilityEngine.evaluate "((" ⟨[], u, [], sc, a, e⟩ true = false) ∧
    (∀ (rule : String) (ctx : VisibilityEngine.Context) (pv : Bool),
      VisibilityEngine.evaluate rule ctx pv = true ∨
      VisibilityEngine.evaluate rule ctx pv = false) :=
  ⟨fun _ => rfl, fun _ _ _ _ => rfl,
   fun rule ctx pv => by cases h : VisibilityEngine.evaluate rule ctx pv <;> simp⟩

/-- C7: once `try_complete` has run `L` times on a branch (starting from
a fresh branch), `try_reserve` by any session holding no reservation
returns false; and in general `try_reserve` grants a new hold exactly
when the completed count is strictly below the limit. -/
theorem c7_theorem :
    (∀ (ops : List QuotaEngine.QuotaOp) (sess : String) (L : Nat),
      L ≤ QuotaEngine.countCompletes ops →
      (QuotaEngine.runOps ⟨0, []⟩ ops).reservations.contains sess = false →
      (QuotaEngine.try_reserve (QuotaEngine.runOps ⟨0, []⟩ ops) sess L).1 = false) ∧
    (∀ (st : QuotaEngine.QuotaState) (sess : String) (L : Nat),
      st.reservations.contains sess = false →
      ((QuotaEngine.try_reserve st sess L).1 = true ↔ st.completed < L)) := by
  constructor
  · intro ops sess L hL hres
    have h2 : ¬ ((QuotaEngine.runOps ⟨0, []⟩ ops).completed < L) := by
      rw [aux_runOps_completed]
      omega
    simp only [List.contains, List.elem_eq_mem, decide_eq_false_iff_not] at hres
    simp [QuotaEngine.try_reserve, hres, h2]
  · intro st sess L hres
    simp only [List.contains, List.elem_eq_mem, decide_eq_false_iff_not] at hres
    by_cases h : st.completed < L <;> simp [QuotaEngine.try_reserve, hres, h]

/-- Witness for C7 at concrete inputs: two completions exhaust a limit
of 2 for a fresh session, and a single completion still leaves room. -/
theorem c7_witness :
    (QuotaEngine.try_reserve
      (QuotaEngine.runOps ⟨0, []⟩ [.complete "s1", .complete "s2"]) "s3" 2).1
        = false ∧
    ((QuotaEngine.try_reserve ⟨1, []⟩ "s4" 2).1 = true ↔ (1 : Nat) < 2) :=
  ⟨c7_theorem.1 [.complete "s1", .complete "s2"] "s3" 2 (by decide) (by decide),
   c7_theorem.2 ⟨1, []⟩ "s4" 2 (by decide)⟩

/-- C8: if some non-empty rule of the chain evaluates to false on its
own, `evaluate_with_inheritance` returns false regardless of the rules
that follow it; and evaluating any rule with `parent_visible = false`
returns false regardless of the rule. -/
theorem c8_theorem :
    (∀ (chain : List (Option String)) (ctx : VisibilityEngine.Context),
      (∃ s, some s ∈ chain ∧ (s == "") = false ∧
        VisibilityEngine.evaluate s ctx true = false) →
      VisibilityEngine.evaluate_with_inheritance chain ctx = false) ∧
    (∀ (rule : String) (ctx : VisibilityEngine.Context),
      VisibilityEngine.evaluate rule ctx false = false) := by
  constructor
  · intro chain ctx h
    obtain ⟨s, hmem, hne, heval⟩ := h
    unfold VisibilityEngine.evaluate_with_inheritance
    induction chain with
    | nil => simp at hmem
    | cons r rest ih =>
        rcases List.mem_cons.mp hmem with rfl | hmem'
        · simp only [VisibilityEngine.ewiGo, hne, Bool.not_false, if_true, heval]
          simp
        · simp only [VisibilityEngine.ewiGo]
          cases r with
          | none => simpa using ih hmem'
          | some t =>
              by_cases ht : (t == "")
              · simpa [ht] using ih hmem'
              · simp only [ht, Bool.not_false, if_true]
                cases hv : VisibilityEngine.evaluate t ctx true
                · simp
                · simpa [hv] using ih hmem'
  · exact aux_evaluate_parent_false

/-- Witness for C8: a chain whose head is the literal rule `false`
evaluates to not-visible, and a rule evaluated under a hidden parent is
not visible. -/
theorem c8_witness :
    VisibilityEngine.evaluate_with_inheritance [some "false"]
      VisibilityEngine.emptyCtx = false ∧
    VisibilityEngine.evaluate "true" VisibilityEngine.emptyCtx false = false :=
  ⟨c8_theorem.1 [some "false"] VisibilityEngine.emptyCtx
    ⟨"false", by simp, rfl, rfl⟩,
   c8_theorem.2 "true" VisibilityEngine.emptyCtx⟩

/-- C1 counterexample: after submitting `B` with recomputed visible list
`[A, B]` and completed set `{B}`, the first unit in the list that is not
completed is `A`, but `_find_next_stage` scans only the positions after
`B` and returns `None`, so `submit_stage` marks the session complete —
refuting the claim that the next unit is the first uncompleted unit of
the list in list order even when it precedes the submitted unit. -/
theorem c1_counterexample :
    SessionManager.find_next_stage "B" ["B"] ["A", "B"] = none ∧
    (SessionManager.submit_next "B" ["B"] ["A", "B"]).2 = true ∧
    "A" ∈ (["A", "B"] : List String) ∧ ("A" ∈ (["B"] : List String) → False) :=
  ⟨rfl, rfl, by decide, by decide⟩

/-- C1 amended: the next unit is the first unit *strictly after the
submitted unit's position* in the freshly recomputed visible list (the
whole list when the submitted unit is absent from it) that is not
completed; everything between that position and the returned unit is
completed; when no such unit exists the result is `None` and
`submit_stage` marks the session complete (`is_complete` is exactly
`next.isNone`), even if an uncompleted unit precedes the submitted
one. -/
theorem c1_amended :
    ∀ (current : String) (completed visible : List String),
      (SessionManager.submit_next current completed visible
        = (SessionManager.find_next_stage current completed visible,
           (SessionManager.find_next_stage current completed visible).isNone)) ∧
      (∀ n, SessionManager.find_next_stage current completed visible = some n →
        completed.contains n = false ∧
        ∃ pre post,
          visible.drop (SessionManager.startIdx current visible)
            = pre ++ n :: post ∧
          ∀ x ∈ pre, completed.contains x = true) ∧
      (SessionManager.find_next_stage current completed visible = none →
        ∀ x ∈ visible.drop (SessionManager.startIdx current visible),
          completed.contains x = true) := by
  intro current completed visible
  refine ⟨rfl, ?_, ?_⟩
  · intro n h
    unfold SessionManager.find_next_stage at h
    obtain ⟨hp, pre, post, hdecomp, hpre⟩ := aux_find?_decomp h
    refine ⟨by simpa using hp, pre, post, hdecomp, ?_⟩
    intro x hx
    simpa using hpre x hx
  · intro h x hx
    unfold SessionManager.find_next_stage at h
    simpa using List.find?_eq_none.mp h x hx

/-- Witness for C1 (amended): submitting `A` against visible `[A, B]`
with nothing completed yields next unit `B`, decomposed as required. -/
theorem c1_witness :
    ([] : List String).contains "B" = false ∧
    ∃ pre post,
      (["A", "B"] : List String).drop (SessionManager.startIdx "A" ["A", "B"])
        = pre ++ "B" :: post ∧
      ∀ x ∈ pre, ([] : List String).contains x = true :=
  (c1_amended "A" [] ["A", "B"]).2.1 "B" rfl

/-- C10: a candidate whose effective `pick_assigns` carry no value for
any condition's variable is never excluded by `_filter_by_conditions`:
each such condition is skipped, so the candidate passes the filter
regardless of the ledger. -/
theorem c10_theorem :
    ∀ (children : List Sequencer.Item) (conds : List Sequencer.PickCondition)
      (ledger : Sequencer.Assigns) (c : Sequencer.Item),
      c ∈ children →
      (∀ cond ∈ conds,
        ((c.effectivePickAssigns).lookup cond.var).getD [] = []) →
      c ∈ Sequencer.filter_by_conditions children conds ledger := by
  intro children conds ledger c hc hvals
  unfold Sequencer.filter_by_conditions
  by_cases hcond : conds.isEmpty
  · simpa [hcond] using hc
  · simp only [hcond, Bool.false_eq_true, if_false]
    refine List.mem_filter.mpr ⟨hc, ?_⟩
    unfold Sequencer.childPassesConditions
    rw [List.all_eq_true]
    intro cond hcond2
    have hv := hvals cond hcond2
    simp [hv]

/-- Witness for C10: the aggregated child (assigning only `v`) passes a
`not_in` filter on the unrelated variable `w` although the ledger
already holds values for `w`. -/
theorem c10_witness :
    childAgg ∈ Sequencer.filter_by_conditions [childAgg]
      [⟨"w", .not_in⟩] [("w", ["A", "B"])] :=
  c10_theorem [childAgg] [⟨"w", .not_in⟩] [("w", ["A", "B"])] childAgg
    (by simp) (by intro cond hcond; simp at hcond; subst hcond; rfl)

/-- The per-candidate filter verdict of `_filter_by_conditions`,
characterized: a condition passes exactly when the candidate has no
value for its variable, or (`not_in`/`!=`) none of its values is in the
ledger, or (`in`/`==`) every one of its values is in the ledger. -/
theorem aux_childPasses_iff (assigns : Sequencer.Assigns)
    (conds : List Sequencer.PickCondition) (ledger : Sequencer.Assigns) :
    Sequencer.childPassesConditions assigns conds ledger = true ↔
      ∀ cond ∈ conds,
        ((assigns.lookup cond.var).getD [] = [] ∨
          match cond.op with
          | .not_in | .not_equal =>
              ∀ v ∈ (assigns.lookup cond.var).getD [],
                ((ledger.lookup cond.var).getD []).contains v = false
          | .in_ | .equal =>
              ∀ v ∈ (assigns.lookup cond.var).getD [],
                ((ledger.lookup cond.var).getD []).contains v = true) := by
  unfold Sequencer.childPassesConditions
  rw [List.all_eq_true]
  apply forall_congr'
  intro cond
  apply imp_congr_right
  intro _
  cases hv : ((assigns.lookup cond.var).getD []).isEmpty with
  | true =>
      have h0 : (assigns.lookup cond.var).getD [] = [] := by
        cases h : (assigns.lookup cond.var).getD [] with
        | nil => rfl
        | cons a t => rw [h] at hv; simp at hv
      simp [hv, h0]
  | false =>
      have hv2 : (assigns.lookup cond.var).getD [] ≠ [] := by
        intro h0
        rw [h0] at hv
        simp at hv
      rw [if_neg (by simp [hv])]
      rw [List.all_eq_true]
      cases hop : cond.op <;> simp [hv2, Bool.not_eq_true']

/-- C2 counterexample: with the `in` condition on `v` and ledger
`v -> [A]`, the container candidate whose effective values are `[A, B]`
has at least one value (`A`) in the ledger, so the claim keeps it; the
code requires every value to appear and excludes it, leaving the pool
empty. -/
theorem c2_counterexample :
    Sequencer.filter_by_conditions [childAgg] [condIn] [("v", ["A"])] = [] ∧
    ((childAgg.effectivePickAssigns.lookup "v").getD []).contains "A" = true ∧
    ((([("v", ["A"])] : Sequencer.Assigns).lookup "v").getD []) = ["A"] :=
  ⟨rfl, rfl, rfl⟩

/-- C2 amended: a candidate is kept under `not_in`/`!=` exactly when none
of its effective values for the variable appear in the ledger, and under
`in`/`==` exactly when *every* one of its values appears (not "at least
one"); a candidate with no value for the variable skips the condition;
and when the conditions empty the candidate pool, `pick_children`
returns an empty selection (empty picked list and empty id list) rather
than raising. -/
theorem c2_amended :
    (∀ (children : List Sequencer.Item) (conds : List Sequencer.PickCondition)
       (ledger : Sequencer.Assigns) (c : Sequencer.Item),
      conds ≠ [] →
      (c ∈ Sequencer.filter_by_conditions children conds ledger ↔
        c ∈ children ∧ ∀ cond ∈ conds,
          (((c.effectivePickAssigns).lookup cond.var).getD [] = [] ∨
            match cond.op with
            | .not_in | .not_equal =>
                ∀ v ∈ ((c.effectivePickAssigns).lookup cond.var).getD [],
                  ((ledger.lookup cond.var).getD []).contains v = false
            | .in_ | .equal =>
                ∀ v ∈ ((c.effectivePickAssigns).lookup cond.var).getD [],
                  ((ledger.lookup cond.var).getD []).contains v = true))) ∧
    (∀ (children : List Sequencer.Item) (r : Sequencer.RulesConfig)
       (sid lid : String) (seed : Option Nat) (ledger : Sequencer.Assigns)
       (pickDb : List (String × Nat)) (pc : Int),
      children ≠ [] →
      r.pick_count = some pc → 0 < pc →
      r.pick_conditions ≠ [] →
      Sequencer.filter_by_conditions children r.pick_conditions ledger = [] →
      (Sequencer.pick_children children (some r) sid lid none seed (some ledger)
        pickDb).1.picked = [] ∧
      (Sequencer.pick_children children (some r) sid lid none seed (some ledger)
        pickDb).1.picked_ids = some []) := by
  constructor
  · intro children conds ledger c hconds
    have hne : conds.isEmpty = false := by
      cases conds with
      | nil => exact absurd rfl hconds
      | cons a t => rfl
    unfold Sequencer.filter_by_conditions
    rw [hne]
    simp only [Bool.false_eq_true, if_false]
    rw [List.mem_filter, aux_childPasses_iff]
  · intro children r sid lid seed ledger pickDb pc hch hpc hpos hconds hfilter
    have hne : children.isEmpty = false := by
      cases children with
      | nil => exact absurd rfl hch
      | cons a t => rfl
    have hcne : r.pick_conditions.isEmpty = false := by
      cases h : r.pick_conditions with
      | nil => exact absurd h hconds
      | cons a t => rfl
    have hnpos : ¬ (pc ≤ 0) := by omega
    constructor <;>
      simp [Sequencer.pick_children, hne, hpc, hnpos, hcne, hfilter]

/-- Witness for C2 (amended), at the concrete inputs of the
counterexample: the pick with the `in` condition returns the empty
selection, and the filter-membership characterization instantiates. -/
theorem c2_witness :
    ((Sequencer.pick_children [childAgg] (some rulesPickCond) "s" "L" none none
        (some [("v", ["A"])]) []).1.picked = [] ∧
     (Sequencer.pick_children [childAgg] (some rulesPickCond) "s" "L" none none
        (some [("v", ["A"])]) []).1.picked_ids = some []) ∧
    (childAgg ∈ Sequencer.filter_by_conditions [childAgg] [condIn] [("v", ["A"])] ↔
      childAgg ∈ [childAgg] ∧ ∀ cond ∈ [condIn],
        (((childAgg.effectivePickAssigns).lookup cond.var).getD [] = [] ∨
          match cond.op with
          | .not_in | .not_equal =>
              ∀ v ∈ ((childAgg.effectivePickAssigns).lookup cond.var).getD [],
                ((([("v", ["A"])] : Sequencer.Assigns).lookup cond.var).getD
                  []).contains v = false
          | .in_ | .equal =>
              ∀ v ∈ ((childAgg.effectivePickAssigns).lookup cond.var).getD [],
                ((([("v", ["A"])] : Sequencer.Assigns).lookup cond.var).getD
                  []).contains v = true)) :=
  ⟨c2_amended.2 [childAgg] rulesPickCond "s" "L" none [("v", ["A"])] [] 1
      (List.cons_ne_nil childAgg []) rfl (by decide)
      (List.cons_ne_nil condIn []) rfl,
   c2_amended.1 [childAgg] [condIn] [("v", ["A"])] childAgg
      (List.cons_ne_nil condIn [])⟩

/-- C5: for a latin_square decision the stored assignment is the
comma-joined realized order (here `a,b`), which can never equal a child
id, so the restoration branch of `get_ordered_children` cannot match;
a replay that passes the stored assignment back re-runs Latin-square
selection against the incremented counters and returns the other order
`b,a` — the two calls disagree although seed, assignment and ledger were
fixed. -/
theorem c5_theorem :
    (Sequencer.get_ordered_children [itemA, itemB] (some rulesLatin) "s" "L" none
      (some 7) [] 0).1.1.map Sequencer.Item.id = ["a", "b"] ∧
    (Sequencer.get_ordered_children [itemA, itemB] (some rulesLatin) "s" "L" none
      (some 7) [] 0).1.2.1 = some "a,b" ∧
    (Sequencer.get_ordered_children [itemA, itemB] (some rulesLatin) "s" "L"
      (some "a,b") (some 7)
      (Sequencer.get_ordered_children [itemA, itemB] (some rulesLatin) "s" "L" none
        (some 7) [] 0).2 0).1.1.map Sequencer.Item.id = ["b", "a"] ∧
    (Sequencer.get_ordered_children [itemA, itemB] (some rulesLatin) "s" "L"
      (some "a,b") (some 7)
      (Sequencer.get_ordered_children [itemA, itemB] (some rulesLatin) "s" "L" none
        (some 7) [] 0).2 0).1.2.1 = some "b,a" ∧
    ((some "b,a" : Option String) = some "a,b" → False) :=
  ⟨rfl, rfl, rfl, rfl, by decide⟩

/-- C4 counterexample: with `balance_on = completed` and counters
`A : started 0 / completed 5`, `B : started 3 / completed 0`, the claim
requires selecting the branch with minimum *completed* count (`B`);
`_balanced_select` reads `started_count` unconditionally and selects `A`
(the tie-break oracle is irrelevant since the minimum is unique), then
increments `A`'s completed count. -/
theorem c4_counterexample :
    (Sequencer.balanced_select [itemCapA, itemCapB] "L" rulesBalancedCompleted
      dbBal 0).1.2.1 = some "A" ∧
    (Sequencer.getCounts dbBal "L" "A").completed = 5 ∧
    (Sequencer.getCounts dbBal "L" "B").completed = 0 ∧
    rulesBalancedCompleted.balance_on = .completed ∧
    (Sequencer.balanced_select [itemCapA, itemCapB] "L" rulesBalancedCompleted
      dbBal 0).2 = [(("L", "A"), ⟨0, 6⟩), (("L", "B"), ⟨3, 0⟩)] :=
  ⟨rfl, rfl, rfl, rfl, rfl⟩

/-- The running minimum of `_balanced_select` is at most its seed. -/
theorem aux_foldl_min_le_init :
    ∀ (l : List (String × Int)) (v : Int),
      l.foldl (fun m p => min m p.2) v ≤ v := by
  intro l
  induction l with
  | nil => intro v; simp
  | cons p t ih =>
      intro v
      calc t.foldl (fun m p => min m p.2) (min v p.2) ≤ min v p.2 := ih _
        _ ≤ v := min_le_left _ _

/-- The running minimum of `_balanced_select` is at most every count in
the list. -/
theorem aux_foldl_min_le_mem :
    ∀ (l : List (String × Int)) (v : Int) (p : String × Int), p ∈ l →
      l.foldl (fun m p => min m p.2) v ≤ p.2 := by
  intro l
  induction l with
  | nil => intro v p hp; simp at hp
  | cons q t ih =>
      intro v p hp
      rcases List.mem_cons.mp hp with rfl | hp'
      · calc t.foldl (fun m p => min m p.2) (min v p.2) ≤ min v p.2 :=
            aux_foldl_min_le_init _ _
          _ ≤ p.2 := min_le_right _ _
      · exact ih _ p hp'

/-- The running minimum is attained: it equals the seed or some count in
the list. -/
theorem aux_foldl_min_attained :
    ∀ (l : List (String × Int)) (v : Int),
      l.foldl (fun m p => min m p.2) v = v ∨
      ∃ p ∈ l, l.foldl (fun m p => min m p.2) v = p.2 := by
  intro l
  induction l with
  | nil => intro v; left; rfl
  | cons q t ih =>
      intro v
      rcases ih (min v q.2) with h | ⟨p, hp, hval⟩
      · rcases le_total v q.2 with hle | hle
        · left
          rw [min_eq_left hle] at h
          simp only [List.foldl_cons, min_eq_left hle, h]
        · right
          rw [min_eq_right hle] at h
          exact ⟨q, List.mem_cons_self q t,
            by simp only [List.foldl_cons, min_eq_right hle, h]⟩
      · right
        exact ⟨p, List.mem_cons_of_mem q hp, hval⟩

/-- An in-bounds `getD` is a member of the list. -/
theorem aux_getD_mem {α : Type} :
    ∀ (l : List α) (n : Nat) (d : α), n < l.length → l.getD n d ∈ l := by
  intro l
  induction l with
  | nil => intro n d h; simp at h
  | cons a t ih =>
      intro n d h
      cases n with
      | zero => exact List.mem_cons_self a t
      | succ m =>
          exact List.mem_cons_of_mem a (ih m d (by simpa using h))

/-- C4 amended: with no existing assignment, `_balanced_select` selects —
among the tied candidates, by the unseeded `random.choice` modelled as
the oracle — a branch whose *started_count* is minimal (the read side
ignores `balance_on`, which governs only the increment), increments that
branch's `balance_on` counter, and returns a single-element selection
with the branch id as the assignment token. -/
theorem c4_amended :
    ∀ (children : List Sequencer.Item) (level_id : String)
      (rules : Sequencer.RulesConfig)
      (db : List ((String × String) × Sequencer.Counts)) (choice : Nat),
      children ≠ [] →
      ∃ sid,
        (Sequencer.balanced_select children level_id rules db choice).1.2.1
          = some sid ∧
        sid ∈ children.map Sequencer.Item.id ∧
        (∀ cid ∈ children.map Sequencer.Item.id,
          (Sequencer.getCounts db level_id sid).started
            ≤ (Sequencer.getCounts db level_id cid).started) ∧
        (Sequencer.balanced_select children level_id rules db choice).2
          = Sequencer.incCounter db level_id sid rules.balance_on ∧
        ∃ c, (Sequencer.balanced_select children level_id rules db choice).1.1
            = [c] ∧ c.id = sid ∧ c ∈ children := by
  intro children level_id rules db choice hch
  cases children with
  | nil => exact absurd rfl hch
  | cons ch cht =>
    set f : Sequencer.Item → String × Int :=
      fun c => (c.id, (Sequencer.getCounts db level_id c.id).started) with hf
    set min_count : Int :=
      (cht.map f).foldl (fun m p => min m p.2) (f ch).2 with hmin
    set candidates : List String :=
      ((f ch :: cht.map f).filter (fun p => p.2 == min_count)).map
        (fun p => p.1) with hcand
    set selId : String := candidates.getD (choice % candidates.length) ""
      with hselId
    set sel : Sequencer.Item :=
      ((ch :: cht).find? (fun c => c.id == selId)).getD
        ((ch :: cht).headD Sequencer.itemDefault) with hsel
    have hunfold : Sequencer.balanced_select (ch :: cht) level_id rules db choice
        = (([sel], some selId, some "Balanced"),
           Sequencer.incCounter db level_id selId rules.balance_on) := rfl
    -- the minimum is a lower bound for every count in the list
    have hminle : ∀ p ∈ f ch :: cht.map f, min_count ≤ p.2 := by
      intro p hp
      rcases List.mem_cons.mp hp with rfl | hp2
      · exact aux_foldl_min_le_init _ _
      · exact aux_foldl_min_le_mem _ _ p hp2
    -- the minimum is attained, so the candidate list is non-empty
    have hattained : ∃ p ∈ f ch :: cht.map f, p.2 = min_count := by
      rcases aux_foldl_min_attained (cht.map f) (f ch).2 with h | ⟨p, hp, hval⟩
      · exact ⟨f ch, List.mem_cons_self _ _, h.symm⟩
      · exact ⟨p, List.mem_cons_of_mem _ hp, hval.symm⟩
    have hcand_ne : 0 < candidates.length := by
      obtain ⟨p, hp, hval⟩ := hattained
      have : p.1 ∈ candidates := by
        rw [hcand]
        exact List.mem_map_of_mem _
          (List.mem_filter.mpr ⟨hp, by simp [hval]⟩)
      exact List.length_pos.mpr (List.ne_nil_of_mem this)
    have hsel_mem : selId ∈ candidates := by
      rw [hselId]
      exact aux_getD_mem _ _ _ (Nat.mod_lt _ hcand_ne)
    -- decode the candidate membership
    obtain ⟨q, hq_filter, hq1⟩ := List.mem_map.mp hsel_mem
    have hq_cs := (List.mem_filter.mp hq_filter).1
    have hq_min : q.2 = min_count := by
      have := (List.mem_filter.mp hq_filter).2
      simpa using this
    have hq_cs2 : q ∈ (ch :: cht).map f := by simpa using hq_cs
    obtain ⟨cq, hcq_mem, hcq⟩ := List.mem_map.mp hq_cs2
    have hcq_id : cq.id = selId := by
      rw [← hq1, ← hcq]
    have hstarted : (Sequencer.getCounts db level_id selId).started = min_count := by
      rw [← hq_min, ← hcq]
      simp [hf, ← hcq_id]
    refine ⟨selId, ?_, ?_, ?_, ?_, ?_⟩
    · rw [hunfold]
    · rw [List.mem_map]
      exact ⟨cq, hcq_mem, hcq_id⟩
    · intro cid hcid
      obtain ⟨c2, hc2_mem, hc2_id⟩ := List.mem_map.mp hcid
      have : f c2 ∈ f ch :: cht.map f := by
        rcases List.mem_cons.mp hc2_mem with rfl | h2
        · exact List.mem_cons_self _ _
        · exact List.mem_cons_of_mem _ (List.mem_map_of_mem f h2)
      have hle := hminle (f c2) this
      rw [hstarted]
      subst hc2_id
      simpa [hf] using hle
    · rw [hunfold]
    · -- the returned single element is the child found by id
      have hfind : ∃ c3, ((ch :: cht).find? (fun c => c.id == selId)) = some c3 := by
        have hex : ∃ x ∈ ch :: cht, (fun c => c.id == selId) x = true :=
          ⟨cq, hcq_mem, by simp [hcq_id]⟩
        rcases hfs : (ch :: cht).find? (fun c => c.id == selId) with _ | c3
        · obtain ⟨x, hx_mem, hx⟩ := hex
          have := List.find?_eq_none.mp hfs x hx_mem
          exact absurd hx this
        · exact ⟨c3, hfs⟩
      obtain ⟨c3, hc3⟩ := hfind
      refine ⟨c3, ?_, ?_, List.mem_of_find?_eq_some hc3⟩
      · rw [hunfold]
        simp [hsel, hc3]
      · have := List.find?_some hc3
        simpa using this

/-- Witness for C4 (amended), at the counterexample's concrete inputs. -/
theorem c4_witness :
    ∃ sid,
      (Sequencer.balanced_select [itemCapA, itemCapB] "L" rulesBalancedCompleted
        dbBal 0).1.2.1 = some sid ∧
      sid ∈ [itemCapA, itemCapB].map Sequencer.Item.id ∧
      (∀ cid ∈ [itemCapA, itemCapB].map Sequencer.Item.id,
        (Sequencer.getCounts dbBal "L" sid).started
          ≤ (Sequencer.getCounts dbBal "L" cid).started) ∧
      (Sequencer.balanced_select [itemCapA, itemCapB] "L" rulesBalancedCompleted
        dbBal 0).2
        = Sequencer.incCounter dbBal "L" sid rulesBalancedCompleted.balance_on ∧
      ∃ c, (Sequencer.balanced_select [itemCapA, itemCapB] "L"
          rulesBalancedCompleted dbBal 0).1.1 = [c] ∧ c.id = sid ∧
        c ∈ [itemCapA, itemCapB] :=
  c4_amended [itemCapA, itemCapB] "L" rulesBalancedCompleted dbBal 0
    (List.cons_ne_nil itemCapA [itemCapB])

/-- Looking a key up after the invalidation rewrite of `stage_progress`:
keys in `deps` now map to `invalidated` (when present), others are
untouched. -/
theorem aux_lookup_map_inval (deps : List String) :
    ∀ (l : List (String × String)) (k : String),
      ((l.map (fun p =>
          if deps.contains p.1 then (p.1, "invalidated") else p)).lookup k)
        = if k ∈ deps then
            (l.lookup k).map (fun _ => "invalidated")
          else l.lookup k := by
  intro l
  induction l with
  | nil => intro k; by_cases h : k ∈ deps <;> simp [List.lookup, h]
  | cons p t ih =>
      intro k
      simp at ih
      rw [List.map_cons]
      by_cases hd : p.1 ∈ deps
      · rw [show (if deps.contains p.1 then (p.1, "invalidated") else p)
            = (p.1, "invalidated") by
          simp [List.contains, List.elem_eq_mem, hd]]
        by_cases hk : k = p.1
        · subst hk
          simp [List.lookup, hd, ih]
        · simp [List.lookup, beq_eq_false_iff_ne.mpr hk, ih]
      · rw [show (if deps.contains p.1 then (p.1, "invalidated") else p) = p by
          simp [List.contains, List.elem_eq_mem, hd]]
        by_cases hk : k = p.1
        · subst hk
          simp [List.lookup, hd]
        · simp [List.lookup, beq_eq_false_iff_ne.mpr hk, ih]

/-- Looking a key up after the `data` unset: keys in `deps` are gone,
others are untouched. -/
theorem aux_lookup_filter_out (deps : List String) :
    ∀ (l : List (String × String)) (k : String),
      ((l.filter (fun p => ! deps.contains p.1)).lookup k)
        = if k ∈ deps then none else l.lookup k := by
  intro l
  induction l with
  | nil => intro k; by_cases h : k ∈ deps <;> simp [List.lookup, h]
  | cons p t ih =>
      intro k
      simp at ih
      rw [List.filter_cons]
      by_cases hd : p.1 ∈ deps
      · rw [show (! deps.contains p.1) = false by
          simp [List.contains, List.elem_eq_mem, hd]]
        simp only [Bool.false_eq_true, if_false]
        by_cases hk : k = p.1
        · subst hk
          simp [List.lookup, ih, hd]
        · simp [List.lookup, beq_eq_false_iff_ne.mpr hk, ih]
      · rw [show (! deps.contains p.1) = true by
          simp [List.contains, List.elem_eq_mem, hd]]
        simp only [if_true]
        by_cases hk : k = p.1
        · subst hk
          simp [List.lookup, hd]
        · simp [List.lookup, beq_eq_false_iff_ne.mpr hk, ih]

/-- Membership in `addUnique`. -/
theorem aux_addUnique_mem {acc : List String} {d x : String}
    (h : x ∈ DependencyGraph.addUnique acc d) : x ∈ acc ∨ x = d := by
  unfold DependencyGraph.addUnique at h
  by_cases hc : acc.contains d
  · rw [if_pos hc] at h
    exact Or.inl h
  · rw [if_neg hc] at h
    rcases List.mem_append.mp h with h2 | h2
    · exact Or.inl h2
    · exact Or.inr (by simpa using h2)

/-- Membership in a fold of `addUnique`. -/
theorem aux_foldl_addUnique_mem :
    ∀ (ds acc : List String) (x : String),
      x ∈ ds.foldl DependencyGraph.addUnique acc → x ∈ acc ∨ x ∈ ds := by
  intro ds
  induction ds with
  | nil => intro acc x h; exact Or.inl h
  | cons d dt ih =>
      intro acc x h
      rcases ih (DependencyGraph.addUnique acc d) x h with h2 | h2
      · rcases aux_addUnique_mem h2 with h3 | h3
        · exact Or.inl h3
        · exact Or.inr (h3 ▸ List.mem_cons_self d dt)
      · exact Or.inr (List.mem_cons_of_mem d h2)

/-- Soundness invariant of the `collect_dependents` worklist: whatever
lands in the accumulator is transitively dependent on the target. -/
theorem aux_collectGo_sound (g : DependencyGraph.DepGraph) (target : String) :
    ∀ (fuel : Nat) (stack visited acc : List String),
      (∀ s ∈ stack, s = target ∨ DependencyGraph.Reaches g target s) →
      (∀ a ∈ acc, DependencyGraph.Reaches g target a) →
      ∀ x ∈ DependencyGraph.collectGo g fuel stack visited acc,
        DependencyGraph.Reaches g target x := by
  intro fuel
  induction fuel with
  | zero =>
      intro stack visited acc hs ha x hx
      exact ha x (by simpa [DependencyGraph.collectGo] using hx)
  | succ f ih =>
      intro stack visited acc hs ha x hx
      cases stack with
      | nil => exact ha x (by simpa [DependencyGraph.collectGo] using hx)
      | cons sid rest =>
          by_cases hv : sid ∈ visited
          · rw [show DependencyGraph.collectGo g (f + 1) (sid :: rest) visited acc
                = DependencyGraph.collectGo g f rest visited acc by
              simp [DependencyGraph.collectGo, List.contains, List.elem_eq_mem,
                hv]] at hx
            exact ih rest visited acc
              (fun s hs2 => hs s (List.mem_cons_of_mem sid hs2)) ha x hx
          · rw [show DependencyGraph.collectGo g (f + 1) (sid :: rest) visited acc
                = DependencyGraph.collectGo g f
                    (DependencyGraph.adj g.dependents sid ++ rest) (sid :: visited)
                    ((DependencyGraph.adj g.dependents sid).foldl
                      DependencyGraph.addUnique acc) by
              simp [DependencyGraph.collectGo, List.contains, List.elem_eq_mem,
                hv]] at hx
            have hsid := hs sid (List.mem_cons_self sid rest)
            have hreach_dep :
                ∀ d ∈ DependencyGraph.adj g.dependents sid,
                  DependencyGraph.Reaches g target d := by
              intro d hd
              have hedge : DependencyGraph.Edge g sid d := hd
              rcases hsid with rfl | hr
              · exact Relation.TransGen.single hedge
              · exact Relation.TransGen.tail hr hedge
            refine ih _ _ _ ?_ ?_ x hx
            · intro s hs2
              rcases List.mem_append.mp hs2 with h2 | h2
              · exact Or.inr (hreach_dep s h2)
              · exact hs s (List.mem_cons_of_mem sid h2)
            · intro a ha2
              rcases aux_foldl_addUnique_mem _ _ _ ha2 with h2 | h2
              · exact ha a h2
              · exact hreach_dep a h2

/-- Everything collected by `collect_dependents` is transitively
dependent on the target. -/
theorem aux_collect_sound (g : DependencyGraph.DepGraph) (target : String) :
    ∀ x ∈ DependencyGraph.collect_dependents g target,
      DependencyGraph.Reaches g target x := by
  intro x hx
  exact aux_collectGo_sound g target _ [target] [] []
    (fun s hs => Or.inl (by simpa using hs)) (fun a ha => absurd ha (by simp))
    x hx

/-- A successful assoc-list lookup comes from an entry of the list. -/
theorem aux_lookup_mem {β : Type} :
    ∀ (m : List (String × β)) (k : String) (v : β),
      m.lookup k = some v → (k, v) ∈ m := by
  intro m
  induction m with
  | nil => intro k v h; simp [List.lookup] at h
  | cons p t ih =>
      intro k v h
      rw [List.lookup] at h
      by_cases hk : (k == p.1)
      · simp only [hk] at h
        cases h
        have hk2 : k = p.1 := eq_of_beq hk
        subst hk2
        have : p = (p.1, p.2) := rfl
        rw [this]
        exact List.mem_cons_self _ _
      · rw [Bool.not_eq_true] at hk
        simp only [hk] at h
        exact List.mem_cons_of_mem p (ih k v h)

/-- `setDeg` only rewrites values; every key of the result is a key of
the input. -/
theorem aux_setDeg_key {m : List (String × Int)} {k : String} {v : Int}
    {p : String × Int} (hp : p ∈ DependencyGraph.setDeg m k v) :
    p.1 = k ∨ p ∈ m := by
  unfold DependencyGraph.setDeg at hp
  obtain ⟨q, hq, hqe⟩ := List.mem_map.mp hp
  by_cases h : (q.1 == k)
  · rw [if_pos h] at hqe
    exact Or.inl (by rw [← hqe])
  · rw [if_neg h] at hqe
    exact Or.inr (hqe ▸ hq)

/-- The queue-update fold of `kahnGo` preserves the invariant that every
in-degree key and every queued stage belongs to `ids`. -/
theorem aux_kahnStep_inv (ids : List String) :
    ∀ (ds : List String) (init : List (String × Int) × List String),
      (∀ p ∈ init.1, p.1 ∈ ids) → (∀ q ∈ init.2, q ∈ ids) →
      (∀ p ∈ (ds.foldl (fun (st : List (String × Int) × List String) dep =>
          match st.1.lookup dep with
          | none => st
          | some d =>
              (DependencyGraph.setDeg st.1 dep (d - 1),
               if d - 1 == 0 then st.2 ++ [dep] else st.2)) init).1, p.1 ∈ ids) ∧
      (∀ q ∈ (ds.foldl (fun (st : List (String × Int) × List String) dep =>
          match st.1.lookup dep with
          | none => st
          | some d =>
              (DependencyGraph.setDeg st.1 dep (d - 1),
               if d - 1 == 0 then st.2 ++ [dep] else st.2)) init).2, q ∈ ids) := by
  intro ds
  induction ds with
  | nil => intro init h1 h2; exact ⟨h1, h2⟩
  | cons d dt ih =>
      intro init h1 h2
      rw [List.foldl_cons]
      rcases hl : init.1.lookup d with _ | dv
      · exact ih init (by simpa [hl] using h1) (by simpa [hl] using h2)
      · have hdmem : d ∈ ids := h1 (d, dv) (aux_lookup_mem init.1 d dv hl)
        refine ih _ ?_ ?_
        · intro p hp
          simp only [hl] at hp
          rcases aux_setDeg_key hp with h3 | h3
          · exact h3 ▸ hdmem
          · exact h1 p h3
        · intro q hq
          simp only [hl] at hq
          by_cases hz : (dv - 1 == 0)
          · rw [if_pos hz] at hq
            rcases List.mem_append.mp hq with h3 | h3
            · exact h2 q h3
            · exact (by simpa using h3 : q = d) ▸ hdmem
          · rw [if_neg hz] at hq
            exact h2 q hq

/-- Every stage `kahnGo` emits belongs to `ids`, provided the queue, the
in-degree keys and the partial result do. -/
theorem aux_kahnGo_subset (g : DependencyGraph.DepGraph) (ids : List String) :
    ∀ (fuel : Nat) (queue : List String) (inDeg : List (String × Int))
      (result : List String),
      (∀ q ∈ queue, q ∈ ids) → (∀ p ∈ inDeg, p.1 ∈ ids) →
      (∀ r ∈ result, r ∈ ids) →
      ∀ x ∈ DependencyGraph.kahnGo g fuel queue inDeg result, x ∈ ids := by
  intro fuel
  induction fuel with
  | zero =>
      intro queue inDeg result hq hd hr x hx
      exact hr x (by simpa [DependencyGraph.kahnGo] using hx)
  | succ f ih =>
      intro queue inDeg result hq hd hr x hx
      cases queue with
      | nil => exact hr x (by simpa [DependencyGraph.kahnGo] using hx)
      | cons current rest =>
          rw [show DependencyGraph.kahnGo g (f + 1) (current :: rest) inDeg result
              = DependencyGraph.kahnGo g f
                  (rest ++ ((DependencyGraph.adj g.dependents current).foldl
                    (fun (st : List (String × Int) × List String) dep =>
                      match st.1.lookup dep with
                      | none => st
                      | some d =>
                          (DependencyGraph.setDeg st.1 dep (d - 1),
                           if d - 1 == 0 then st.2 ++ [dep] else st.2))
                    (inDeg, [])).2)
                  ((DependencyGraph.adj g.dependents current).foldl
                    (fun (st : List (String × Int) × List String) dep =>
                      match st.1.lookup dep with
                      | none => st
                      | some d =>
                          (DependencyGraph.setDeg st.1 dep (d - 1),
                           if d - 1 == 0 then st.2 ++ [dep] else st.2))
                    (inDeg, [])).1
                  (result ++ [current]) by
            simp [DependencyGraph.kahnGo]] at hx
          have hstep := aux_kahnStep_inv ids (DependencyGraph.adj g.dependents current)
            (inDeg, []) hd (by simp)
          refine ih _ _ _ ?_ hstep.1 ?_ x hx
          · intro q hq2
            rcases List.mem_append.mp hq2 with h2 | h2
            · exact hq q (List.mem_cons_of_mem current h2)
            · exact hstep.2 q h2
          · intro r hr2
            rcases List.mem_append.mp hr2 with h2 | h2
            · exact hr r h2
            · exact (by simpa using h2 : r = current) ▸
                hq current (List.mem_cons_self current rest)

/-- The topological sort emits only stages of its input list. -/
theorem aux_topo_subset (g : DependencyGraph.DepGraph) (ids : List String) :
    ∀ x ∈ DependencyGraph.topological_sort g ids, x ∈ ids := by
  intro x hx
  cases ids with
  | nil => simp [DependencyGraph.topological_sort] at hx
  | cons i it =>
      unfold DependencyGraph.topological_sort at hx
      refine aux_kahnGo_subset g (i :: it) _ _ _ _ ?_ ?_ (by simp) x hx
      · intro q hq
        obtain ⟨p, hp, hpe⟩ := List.mem_map.mp hq
        have := (List.mem_filter.mp hp).1
        obtain ⟨sid, hsid, hside⟩ := List.mem_map.mp this
        exact hpe ▸ (hside ▸ hsid : p.1 ∈ i :: it)
      · intro p hp
        obtain ⟨sid, hsid, hside⟩ := List.mem_map.mp hp
        exact (hside ▸ hsid : p.1 ∈ i :: it)

/-- Everything `get_dependents` returns is transitively dependent on the
target. -/
theorem aux_get_dependents_sound (g : DependencyGraph.DepGraph) (target : String) :
    ∀ x ∈ DependencyGraph.get_dependents g target,
      DependencyGraph.Reaches g target x := by
  intro x hx
  exact aux_collect_sound g target x
    (aux_topo_subset g (DependencyGraph.collect_dependents g target) x hx)

/-- C6 counterexample: in the cyclic configuration `gCyc` (where `Y`
references `X` and `Z`, and `Z` references `Y`), `Y` is transitively
dependent on `X`, yet `get_dependents` returns the empty list — Kahn's
algorithm drops the cycle members `Y, Z` — so the jump to the completed,
editable `X` leaves `Y` completed with its payload intact, refuting the
claim that every transitive dependent is invalidated. -/
theorem c6_counterexample :
    DependencyGraph.get_dependents gCyc "X" = [] ∧
    DependencyGraph.jump_invalidate gCyc stCyc "X" true true = stCyc ∧
    "Y" ∈ stCyc.completed_stages ∧
    stCyc.data.lookup "Y" = some "dy" ∧
    stCyc.stage_progress.lookup "Y" = some "completed" ∧
    DependencyGraph.Reaches gCyc "X" "Y" :=
  ⟨rfl, rfl, by decide, rfl, rfl,
   Relation.TransGen.single (by unfold DependencyGraph.Edge; decide)⟩

/-- C6 amended: when a jump targets a completed, editable unit whose
policy invalidates dependents, every unit in the `get_dependents` list —
each of which is indeed transitively dependent on the target, though in
cyclic configurations the Kahn topological sort may omit dependents that
lie on cycles — is removed from the completed list, has its stored
payload removed, and, if its status was `completed`, has it changed to
`invalidated`; every unit outside that list keeps its completed-list
membership, its stored data and its status unchanged. -/
theorem c6_amended :
    ∀ (g : DependencyGraph.DepGraph) (st : DependencyGraph.JumpSession)
      (target : String),
      target ∈ st.completed_stages →
      (∀ d ∈ DependencyGraph.get_dependents g target,
        DependencyGraph.Reaches g target d ∧
        d ∉ (DependencyGraph.jump_invalidate g st target true true).completed_stages ∧
        (DependencyGraph.jump_invalidate g st target true true).data.lookup d
          = none ∧
        (st.stage_progress.lookup d = some "completed" →
          (DependencyGraph.jump_invalidate g st target true
            true).stage_progress.lookup d = some "invalidated")) ∧
      (∀ u, u ∉ DependencyGraph.get_dependents g target →
        ((u ∈ (DependencyGraph.jump_invalidate g st target true
            true).completed_stages) ↔ u ∈ st.completed_stages) ∧
        (DependencyGraph.jump_invalidate g st target true true).data.lookup u
          = st.data.lookup u ∧
        (DependencyGraph.jump_invalidate g st target true
          true).stage_progress.lookup u = st.stage_progress.lookup u) := by
  intro g st target htgt
  have hcond : (st.completed_stages.contains target && true && true) = true := by
    simp [List.contains, List.elem_eq_mem, htgt]
  by_cases hde : (DependencyGraph.get_dependents g target).isEmpty
  · have hnil : DependencyGraph.get_dependents g target = [] := by
      cases h : DependencyGraph.get_dependents g target with
      | nil => rfl
      | cons a t => rw [h] at hde; simp at hde
    have hid : DependencyGraph.jump_invalidate g st target true true = st := by
      unfold DependencyGraph.jump_invalidate
      rw [if_pos hcond, if_pos hde]
    constructor
    · intro d hd
      rw [hnil] at hd
      cases hd
    · intro u _
      rw [hid]
      exact ⟨Iff.rfl, rfl, rfl⟩
  · have hj : DependencyGraph.jump_invalidate g st target true true
        = ⟨st.stage_progress.map
             (fun p => if (DependencyGraph.get_dependents g target).contains p.1
               then (p.1, "invalidated") else p),
           st.completed_stages.filter
             (fun sid => ! (DependencyGraph.get_dependents g target).contains sid),
           st.data.filter
             (fun p => ! (DependencyGraph.get_dependents g target).contains p.1)⟩ := by
      unfold DependencyGraph.jump_invalidate
      rw [if_pos hcond, if_neg hde]
    constructor
    · intro d hd
      refine ⟨aux_get_dependents_sound g target d hd, ?_, ?_, ?_⟩
      · rw [hj]
        intro hmem
        have := (List.mem_filter.mp hmem).2
        simp [List.contains, List.elem_eq_mem, hd] at this
      · rw [hj]
        show (st.data.filter _).lookup d = none
        rw [aux_lookup_filter_out]
        rw [if_pos hd]
      · intro hc
        rw [hj]
        show (st.stage_progress.map _).lookup d = some "invalidated"
        rw [aux_lookup_map_inval]
        rw [if_pos hd, hc]
        rfl
    · intro u hu
      refine ⟨?_, ?_, ?_⟩
      · rw [hj]
        show (u ∈ st.completed_stages.filter _) ↔ u ∈ st.completed_stages
        rw [List.mem_filter]
        constructor
        · exact fun h => h.1
        · intro h
          refine ⟨h, ?_⟩
          simp [List.contains, List.elem_eq_mem, hu]
      · rw [hj]
        show (st.data.filter _).lookup u = st.data.lookup u
        rw [aux_lookup_filter_out]
        rw [if_neg hu]
      · rw [hj]
        show (st.stage_progress.map _).lookup u = st.stage_progress.lookup u
        rw [aux_lookup_map_inval]
        rw [if_neg hu]

/-- Witness for C6 (amended), on the acyclic graph `gLin` and session
`stLin`: jumping to `X` invalidates `Y` (dependent) and leaves `W`
(independent) untouched. -/
theorem c6_witness :
    (DependencyGraph.Reaches gLin "X" "Y" ∧
     "Y" ∉ (DependencyGraph.jump_invalidate gLin stLin "X" true
       true).completed_stages ∧
     (DependencyGraph.jump_invalidate gLin stLin "X" true true).data.lookup "Y"
       = none ∧
     (stLin.stage_progress.lookup "Y" = some "completed" →
       (DependencyGraph.jump_invalidate gLin stLin "X" true
         true).stage_progress.lookup "Y" = some "invalidated")) ∧
    (("W" ∈ (DependencyGraph.jump_invalidate gLin stLin "X" true
        true).completed_stages ↔ "W" ∈ stLin.completed_stages) ∧
     (DependencyGraph.jump_invalidate gLin stLin "X" true true).data.lookup "W"
       = stLin.data.lookup "W" ∧
     (DependencyGraph.jump_invalidate gLin stLin "X" true
       true).stage_progress.lookup "W" = stLin.stage_progress.lookup "W") :=
  ⟨(c6_amended gLin stLin "X" (by decide)).1 "Y" (by decide),
   (c6_amended gLin stLin "X" (by decide)).2 "W" (by decide)⟩
